import Mathlib

/-!
Verification of the `bucket` object store (github.com/kfc-manager/bucket).

This file gives a shallow embedding of the two core components of the
repository — the SigV4 request authenticator (`domain` package, auth file)
and the filesystem-backed object store (`domain` package, storage file) —
and proves properties about them.

Modelling conventions:
* Go byte slices are `List Nat` (each entry a byte value).
* Go strings are Lean `String`s; operations that Go performs on the UTF-8
  byte representation (length, indexing of first/last byte) go through the
  explicit UTF-8 encoder `strBytes`.  Char-level splitting on an ASCII
  separator agrees with Go's byte-level splitting because no multi-byte
  UTF-8 encoding contains an ASCII byte.
* The SHA-256 and HMAC-SHA-256 primitives from Go's standard library are
  implemented in full, on `List Nat`.
* The filesystem is a store of normalized paths (lists of segments) to
  nodes; `os.Stat`, `os.MkdirAll`, `os.WriteFile`, `os.ReadFile` and
  `os.RemoveAll` are modelled on it.  JSON (de)serialization of the
  metadata file is modelled by storing the metadata record itself in the
  file node (the round-trip contract of `encoding/json` for this struct).
-/

/-! ## Bytes and UTF-8 -/

/-- UTF-8 encoding of a single code point, as byte values. -/
def utf8Bytes (c : Char) : List Nat :=
  let n := c.toNat
  if n < 0x80 then [n]
  else if n < 0x800 then [0xc0 + n / 64, 0x80 + n % 64]
  else if n < 0x10000 then [0xe0 + n / 4096, 0x80 + (n / 64) % 64, 0x80 + n % 64]
  else [0xf0 + n / 262144, 0x80 + (n / 4096) % 64, 0x80 + (n / 64) % 64, 0x80 + n % 64]

/-- The UTF-8 bytes of a string: Go's `[]byte(s)`. -/
def strBytes (s : String) : List Nat :=
  s.data.foldr (fun c acc => utf8Bytes c ++ acc) []

/-! ## SHA-256 (crypto/sha256) -/

def add32 (a b : Nat) : Nat := (a + b) % 4294967296

def rotr32 (n x : Nat) : Nat := ((x >>> n) ||| (x <<< (32 - n))) % 4294967296

/-- The 64 SHA-256 round constants of FIPS 180-4, as decimal values. -/
def shaK : List Nat :=
  [1116352408, 1899447441, 3049323471, 3921009573, 961987163,
   1508970993, 2453635748, 2870763221, 3624381080, 310598401,
   607225278, 1426881987, 1925078388, 2162078206, 2614888103,
   3248222580, 3835390401, 4022224774, 264347078, 604807628,
   770255983, 1249150122, 1555081692, 1996064986, 2554220882,
   2821834349, 2952996808, 3210313671, 3336571891, 3584528711,
   113926993, 338241895, 666307205, 773529912, 1294757372,
   1396182291, 1695183700, 1986661051, 2177026350, 2456956037,
   2730485921, 2820302411, 3259730800, 3345764771, 3516065817,
   3600352804, 4094571909, 275423344, 430227734, 506948616,
   659060556, 883997877, 958139571, 1322822218, 1537002063,
   1747873779, 1955562222, 2024104815, 2227730452, 2361852424,
   2428436474, 2756734187, 3204031479, 3329325298]

/-- An eight-word SHA-256 state. -/
structure Hash8 where
  a : Nat
  b : Nat
  c : Nat
  d : Nat
  e : Nat
  f : Nat
  g : Nat
  h : Nat
deriving DecidableEq

def shaInit : Hash8 :=
  ⟨1779033703, 3144134277, 1013904242, 2773480762, 1359893119, 2600822924, 528734635, 1541459225⟩

/-- Extend a 16-word block to the 64-word message schedule. -/
def schedule (block : List Nat) : List Nat :=
  (List.range 48).foldl
    (fun ws _ =>
      let n := ws.length
      let w15 := ws.getD (n - 15) 0
      let w2 := ws.getD (n - 2) 0
      let s0 := (rotr32 7 w15) ^^^ (rotr32 18 w15) ^^^ (w15 >>> 3)
      let s1 := (rotr32 17 w2) ^^^ (rotr32 19 w2) ^^^ (w2 >>> 10)
      ws ++ [add32 (add32 (ws.getD (n - 16) 0) s0) (add32 (ws.getD (n - 7) 0) s1)])
    block

def compressStep (st : Hash8) (w k : Nat) : Hash8 :=
  let bigS1 := (rotr32 6 st.e) ^^^ (rotr32 11 st.e) ^^^ (rotr32 25 st.e)
  let ch := (st.e &&& st.f) ^^^ ((st.e ^^^ 4294967295) &&& st.g)
  let t1 := add32 (add32 (add32 st.h bigS1) (add32 ch k)) w
  let bigS0 := (rotr32 2 st.a) ^^^ (rotr32 13 st.a) ^^^ (rotr32 22 st.a)
  let mj := (st.a &&& st.b) ^^^ (st.a &&& st.c) ^^^ (st.b &&& st.c)
  let t2 := add32 bigS0 mj
  ⟨add32 t1 t2, st.a, st.b, st.c, add32 st.d t1, st.e, st.f, st.g⟩

def compress (st : Hash8) (block : List Nat) : Hash8 :=
  let fin := ((schedule block).zip shaK).foldl (fun s wk => compressStep s wk.1 wk.2) st
  ⟨add32 st.a fin.a, add32 st.b fin.b, add32 st.c fin.c, add32 st.d fin.d,
   add32 st.e fin.e, add32 st.f fin.f, add32 st.g fin.g, add32 st.h fin.h⟩

/-- Group bytes into 32-bit big-endian words. -/
def toWords : List Nat → List Nat
  | b0 :: b1 :: b2 :: b3 :: rest => (((b0 * 256 + b1) * 256 + b2) * 256 + b3) :: toWords rest
  | _ => []

/-- Group a word list whose length is a multiple of 16 into 16-word blocks. -/
def toBlocks : List Nat → List (List Nat)
  | w0 :: w1 :: w2 :: w3 :: w4 :: w5 :: w6 :: w7 ::
    w8 :: w9 :: w10 :: w11 :: w12 :: w13 :: w14 :: w15 :: rest =>
      [w0, w1, w2, w3, w4, w5, w6, w7, w8, w9, w10, w11, w12, w13, w14, w15] :: toBlocks rest
  | _ => []

/-- SHA-256 padding: append `0x80`, zeros, and the 64-bit big-endian bit length. -/
def padMessage (msg : List Nat) : List Nat :=
  let L := msg.length
  let padLen := ((119 - L % 64) % 64) + 1
  msg ++ [0x80] ++ List.replicate (padLen - 1) 0 ++
    [((L * 8) >>> 56) % 256, ((L * 8) >>> 48) % 256, ((L * 8) >>> 40) % 256,
     ((L * 8) >>> 32) % 256, ((L * 8) >>> 24) % 256, ((L * 8) >>> 16) % 256,
     ((L * 8) >>> 8) % 256, (L * 8) % 256]

def wordBytes (w : Nat) : List Nat :=
  [(w >>> 24) % 256, (w >>> 16) % 256, (w >>> 8) % 256, w % 256]

/-- SHA-256 digest of a byte list, as 32 bytes. -/
def sha256 (msg : List Nat) : List Nat :=
  let st := (toBlocks (toWords (padMessage msg))).foldl compress shaInit
  wordBytes st.a ++ wordBytes st.b ++ wordBytes st.c ++ wordBytes st.d ++
    wordBytes st.e ++ wordBytes st.f ++ wordBytes st.g ++ wordBytes st.h

/-- Lowercase hex digit for a nibble. -/
def hexDigit (n : Nat) : Char :=
  let m := n % 16
  if m < 10 then Char.ofNat (48 + m) else Char.ofNat (87 + m)

/-- Lowercase hex encoding of a byte list: `encoding/hex.EncodeToString`. -/
def hexEncode (bs : List Nat) : String :=
  String.mk (bs.foldr (fun b acc => hexDigit (b / 16) :: hexDigit (b % 16) :: acc) [])

/-- The repository's `Sha256Hash`: lowercase hex of the SHA-256 digest. -/
def Sha256Hash (data : List Nat) : String := hexEncode (sha256 data)

/-- HMAC-SHA-256 (crypto/hmac with sha256.New), block size 64. -/
def hmacSha256 (key msg : List Nat) : List Nat :=
  let k0 := if 64 < key.length then sha256 key else key
  let kp := k0 ++ List.replicate (64 - k0.length) 0
  let ipad := kp.map (fun b => b ^^^ 0x36)
  let opad := kp.map (fun b => b ^^^ 0x5c)
  sha256 (opad ++ sha256 (ipad ++ msg))

/-! ## Go string helpers -/

/-- Go `strings.Split` with a one-character separator, on char lists. -/
def splitChAux (sep : Char) : List Char → List (List Char)
  | [] => [[]]
  | c :: cs =>
    let r := splitChAux sep cs
    if c = sep then [] :: r
    else
      match r with
      | x :: xs => (c :: x) :: xs
      | [] => [[c]]

/-- Go `strings.Split(s, sep)` for a one-character ASCII separator. -/
def goSplit (s : String) (sep : Char) : List String :=
  (splitChAux sep s.data).map String.mk

/-- Split at the first occurrence of `sep` only: Go `strings.SplitN(s, sep, 2)`
for a one-character separator.  Result has one element (no separator) or two. -/
def splitN2Aux (sep : Char) : List Char → List (List Char)
  | [] => [[]]
  | c :: cs =>
    if c = sep then [[], cs]
    else
      match splitN2Aux sep cs with
      | x :: xs => (c :: x) :: xs
      | [] => [[c]]

def splitN2 (s : String) (sep : Char) : List String :=
  (splitN2Aux sep s.data).map String.mk

/-- Go `unicode.IsSpace`, modelled exactly on the Latin-1 range; the space
code points of category Zs above U+00FF are not modelled (they never occur
in the inputs considered here). -/
def isSpaceGo (c : Char) : Bool :=
  c = ' ' || c = '\t' || c = '\n' || c = '\x0b' || c = '\x0c' || c = '\r' ||
    c.toNat = 0x85 || c.toNat = 0xa0

/-- Go `strings.TrimSpace`. -/
def trimSpace (s : String) : String :=
  String.mk (((s.data.dropWhile isSpaceGo).reverse.dropWhile isSpaceGo).reverse)

/-- Go `strings.HasPrefix` (byte order and char order agree on UTF-8). -/
def hasPrefixGo (s p : String) : Bool := p.data.isPrefixOf s.data

/-- Go `strings.HasSuffix`. -/
def hasSuffixGo (s p : String) : Bool := p.data.isSuffixOf s.data

/-- Drop the first `n` chars: Go slicing `s[n:]` for a cut at a char
boundary (always the case here since it is guarded by a prefix check). -/
def dropStr (s : String) (n : Nat) : String := String.mk (s.data.drop n)

/-- Go `strings.Contains(s, sub)` on char lists. -/
def containsSub : List Char → List Char → Bool
  | [], sub => sub.isEmpty
  | c :: cs, sub => sub.isPrefixOf (c :: cs) || containsSub cs sub

/-- Insert into an ascending list of strings. -/
def insertSorted (x : String) : List String → List String
  | [] => [x]
  | y :: ys => if x ≤ y then x :: y :: ys else y :: insertSorted x ys

/-- Go `sort.Strings`: ascending lexicographic sort (Go's byte order and
Lean's code-point order agree on UTF-8 strings). -/
def sortStrings (l : List String) : List String := l.foldr insertSorted []

/-! ## Errors -/

/-- A Go `error` value from the domain package: either a `domain.Error`
carrying an HTTP status code, or an `errors.New` / wrapped I/O error. -/
inductive GoErr
  | status (msg : String) (code : Nat)
  | plain (msg : String)
deriving DecidableEq

/-! ## Request authenticator (SigV4, auth source file) -/

def signAlgorithm : String := "AWS4-HMAC-SHA256"

structure Auth where
  accessKey : String
  secretKey : String

structure AuthHeader where
  credential : String
  signedHeaders : String
  signature : String
deriving DecidableEq

/-- Request headers as an association list (first binding wins); Go map
lookup of an absent key yields the zero value `""`. -/
abbrev Headers := List (String × String)

def hlookup (hs : Headers) (k : String) : String :=
  match hs with
  | [] => ""
  | (k2, v) :: rest => if k2 = k then v else hlookup rest k

/-- The key-value map built from the comma-separated fields of the
authorization header: each field is trimmed and split at the first `=`;
fields without `=` are skipped; later duplicates override earlier ones
(Go map assignment). -/
def kvOf (fields : List String) : String → String :=
  fields.foldl
    (fun m field =>
      match splitN2 (trimSpace field) '=' with
      | [k, v] => fun q => if q = k then v else m q
      | _ => m)
    (fun _ => "")

/-- `Auth.parseAuthHeader`. -/
def parseAuthHeader (a : Auth) (header : String) : Except GoErr AuthHeader :=
  let pfx := signAlgorithm ++ " "
  if hasPrefixGo header pfx then
    let kv := kvOf (goSplit (dropStr header pfx.data.length) ',')
    let cred := kv "Credential"
    let pfx2 := a.accessKey ++ "/"
    if hasPrefixGo cred pfx2 then
      Except.ok ⟨dropStr cred pfx2.data.length, kv "SignedHeaders", kv "Signature"⟩
    else Except.error (GoErr.plain "invalid access key")
  else Except.error (GoErr.plain "signing algorithm not supported")

/-- `hmacHash(key, data)`. -/
def hmacHash (key : List Nat) (data : String) : List Nat :=
  hmacSha256 key (strBytes data)

/-- `Auth.signingKey`: fold HMAC over the credential-scope components. -/
def signingKey (a : Auth) (cred : String) : List Nat :=
  (goSplit cred '/').foldl (fun k v => hmacHash k v) (strBytes ("AWS4" ++ a.secretKey))

/-- `canonicalUri`. -/
def canonicalUri (uri : String) : String :=
  if uri.length < 1 then "/" else (goSplit uri '?').headD ""

/-- `canonicalQuery`. -/
def canonicalQuery (uri : String) : String :=
  let parts := goSplit uri '?'
  let query := if 1 < parts.length then parts.getD 1 "" else ""
  let sorted := sortStrings (goSplit query '&')
  let str := sorted.foldl (fun acc v => acc ++ v ++ "&") ""
  if 0 < str.length then String.mk str.data.dropLast else str

/-- `canonicalHeaders`. -/
def canonicalHeaders (headers : Headers) (signed : List String) : String :=
  signed.foldl (fun acc key => acc ++ key ++ ":" ++ trimSpace (hlookup headers key) ++ "\n") ""

/-- `canonicalRequest`. -/
def canonicalRequest (method uri : String) (headers : Headers) (signed body : String) : String :=
  method ++ "\n" ++ canonicalUri uri ++ "\n" ++ canonicalQuery uri ++ "\n" ++
    canonicalHeaders headers (goSplit signed ';') ++ "\n" ++ signed ++ "\n" ++ body

/-- `strToSign`. -/
def strToSign (algo date cred req : String) : String :=
  algo ++ "\n" ++ date ++ "\n" ++ cred ++ "\n" ++ Sha256Hash (strBytes req)

/-- The hex signature `Validate` recomputes for a parsed header (the inline
tail of the source's `Validate`, factored out so theorems can refer to it). -/
def computedSignature (a : Auth) (method uri : String) (headers : Headers) (body : String)
    (ah : AuthHeader) : String :=
  let req := canonicalRequest method uri headers ah.signedHeaders body
  let str := strToSign signAlgorithm (hlookup headers "x-amz-date") ah.credential req
  hexEncode (hmacHash (signingKey a ah.credential) str)

/-- `Auth.Validate`; `none` is success (the Go `nil` error). -/
def Validate (a : Auth) (method uri : String) (headers : Headers) (body : String) : Option GoErr :=
  if (hlookup headers "authorization").length < 1 then
    some (GoErr.plain "authorization header missing")
  else
    match parseAuthHeader a (hlookup headers "authorization") with
    | Except.error e => some e
    | Except.ok ah =>
      if computedSignature a method uri headers body ah ≠ ah.signature then
        some (GoErr.plain "invalid signature")
      else none

/-! ## Bucket naming policy (storage source file) -/

/-- Go `unicode.IsLower`, modelled exactly on the Latin-1 range (lowercase
at `0x61`–`0x7a`, `0xb5`, `0xdf`–`0xf6`, `0xf8`–`0xff`); category-Ll code
points above U+00FF are not modelled (treated as not lower). -/
def unicodeIsLower (c : Char) : Bool :=
  let n := c.toNat
  decide ((0x61 ≤ n ∧ n ≤ 0x7a) ∨ n = 0xb5 ∨ (0xdf ≤ n ∧ n ≤ 0xf6) ∨ (0xf8 ≤ n ∧ n ≤ 0xff))

/-- Go `unicode.IsDigit`, modelled exactly on the Latin-1 range (only the
ASCII digits); category-Nd code points above U+00FF are not modelled. -/
def unicodeIsDigit (c : Char) : Bool :=
  decide (0x30 ≤ c.toNat ∧ c.toNat ≤ 0x39)

/-- The per-rune condition of the source's character loop. -/
def allowedChar (c : Char) : Bool :=
  unicodeIsLower c || unicodeIsDigit c || decide (c = '.') || decide (c = '-')

def digitsVal (l : List Char) : Nat := l.foldl (fun n c => n * 10 + (c.toNat - 48)) 0

/-- One dotted-decimal IPv4 field per Go's parser (Go ≥ 1.17): nonempty,
at most 3 ASCII digits, value ≤ 255, no leading zero. -/
def ipv4Field (f : String) : Bool :=
  decide (0 < f.data.length) && decide (f.data.length ≤ 3) &&
    f.data.all (fun c => decide ('0' ≤ c ∧ c ≤ '9')) &&
    (decide (f.data.length = 1) || decide (f.data.headD '0' ≠ '0')) &&
    decide (digitsVal f.data ≤ 255)

/-- Whether `net.ParseIP(name)` returns non-nil.  At its use site the name
has already passed the character rule, so it contains no `:` and
`net.ParseIP` can only succeed as a dotted-decimal IPv4 address; it is
modelled as exactly that. -/
def goParseIPOk (s : String) : Bool :=
  match goSplit s '.' with
  | [a, b, c, d] => ipv4Field a && ipv4Field b && ipv4Field c && ipv4Field d
  | _ => false

/-- `validName` (the bucket naming policy); `none` means valid.  Lengths
and the first/last characters are taken on the UTF-8 bytes, exactly as the
Go source's `len(name)`, `name[:1][0]` and `name[len(name)-1:][0]`; the
character rule ranges over runes as Go's `for _, char := range name`. -/
def validName (name : String) : Option GoErr :=
  if (strBytes name).length < 3 then
    some (GoErr.status "bucket name must be at least 3 characters long" 400)
  else if 63 < (strBytes name).length then
    some (GoErr.status "bucket name must be not longer than 63 characters" 400)
  else if !(name.data.all allowedChar) then
    some (GoErr.status "bucket name can consist only of lowercase letters, numbers, periods and hyphens" 400)
  else if !(unicodeIsLower (Char.ofNat ((strBytes name).headD 0)) ||
            unicodeIsDigit (Char.ofNat ((strBytes name).headD 0))) then
    some (GoErr.status "bucket name must begin with a letter or number" 400)
  else if !(unicodeIsLower (Char.ofNat ((strBytes name).getLastD 0)) ||
            unicodeIsDigit (Char.ofNat ((strBytes name).getLastD 0))) then
    some (GoErr.status "bucket name must end with a letter or number" 400)
  else if containsSub name.data ['.', '.'] then
    some (GoErr.status "bucket name can not contain two adjacent periods" 400)
  else if goParseIPOk name then
    some (GoErr.status "bucket name can not be formatted as an IP address" 400)
  else
    match ["xn--", "sthree-", "amzn-s3-demo-"].find? (fun p => hasPrefixGo name p) with
    | some p => some (GoErr.status ("bucket name can not begin with the prefix: '" ++ p ++ "'") 400)
    | none =>
      match ["-s3alias", "--ol-s3", "--x-s3", "--table-s3"].find? (fun z => hasSuffixGo name z) with
      | some z => some (GoErr.status ("bucket name can not end with the suffix: '" ++ z ++ "'") 400)
      | none => none

/-! ## Filesystem model and object store (storage source file) -/

/-- The metadata record persisted as `metadata.json`. -/
structure Metadata where
  contentHash : String
  contentSize : Nat
  originalKey : String
  lastModified : Int
deriving DecidableEq

inductive Node
  | dir
  | bodyFile (data : List Nat)
  | metaFile (m : Metadata)
deriving DecidableEq

deriving instance DecidableEq for Except

abbrev FsPath := List String

/-- The filesystem: bindings of normalized paths to nodes, most recent
binding first. -/
abbrev FS := List (FsPath × Node)

def fsFind : FS → FsPath → Option Node
  | [], _ => none
  | (q, n) :: rest, p => if q = p then some n else fsFind rest p

/-- Create or overwrite the node at a path. -/
def fsSet (fs : FS) (p : FsPath) (n : Node) : FS := (p, n) :: fs

/-- POSIX path-string normalization of slash-separated segments: empty
segments and `.` vanish, `..` pops the previous segment. -/
def normSegs (segs : List String) : FsPath :=
  segs.foldl
    (fun acc s =>
      if s = "" ∨ s = "." then acc
      else if s = ".." then acc.dropLast
      else acc ++ [s])
    []

/-- The normalized path a path string denotes. -/
def normPath (s : String) : FsPath := normSegs (goSplit s '/')

structure Storage where
  path : String

/-- `Storage.existPath`: whether `os.Stat(s.path + "/" + path)` succeeds. -/
def existPath (st : Storage) (fs : FS) (rel : String) : Bool :=
  (fsFind fs (normPath (st.path ++ "/" ++ rel))).isSome

/-- All nonempty prefixes of a path, shortest first. -/
def pathPrefixes : FsPath → List FsPath
  | [] => []
  | s :: rest => [s] :: (pathPrefixes rest).map (fun q => s :: q)

/-- One step of `os.MkdirAll`: ensure a directory at `q`. -/
def mkdirStep (acc : FS) (q : FsPath) : Except GoErr FS :=
  match fsFind acc q with
  | some Node.dir => Except.ok acc
  | some _ => Except.error (GoErr.plain "mkdir: not a directory")
  | none => Except.ok (fsSet acc q Node.dir)

/-- `os.MkdirAll`: create every missing directory along the path; fail if
an existing node along it is not a directory. -/
def mkdirAll (fs : FS) (p : FsPath) : Except GoErr FS :=
  (pathPrefixes p).foldlM mkdirStep fs

/-- `os.WriteFile`: the parent must be a directory (the working directory
`[]` counts as one), and the target must not be a directory. -/
def writeFile (fs : FS) (p : FsPath) (n : Node) : Except GoErr FS :=
  if p.dropLast.isEmpty || (match fsFind fs p.dropLast with
      | some Node.dir => true
      | _ => false) then
    match fsFind fs p with
    | some Node.dir => Except.error (GoErr.plain "write: is a directory")
    | _ => Except.ok (fsSet fs p n)
  else Except.error (GoErr.plain "write: no such directory")

/-- `os.RemoveAll`: delete the node at `p` and everything below it; no
error when nothing is there. -/
def removeAll (fs : FS) (p : FsPath) : FS :=
  match fs with
  | [] => []
  | e :: rest => if p.isPrefixOf e.1 then removeAll rest p else e :: removeAll rest p

/-- `NewStorage`. -/
def NewStorage (fs : FS) (path : String) : Except GoErr Storage :=
  match fsFind fs (normPath path) with
  | some Node.dir => Except.ok ⟨path⟩
  | some _ => Except.error (GoErr.plain ("path '" ++ path ++ "' is not a directory"))
  | none => Except.error (GoErr.plain ("path '" ++ path ++ "' does not exist"))

/-- `Storage.NewBucket`. -/
def NewBucket (st : Storage) (fs : FS) (name : String) : Except GoErr FS :=
  match validName name with
  | some e => Except.error e
  | none =>
    if existPath st fs name then
      Except.error (GoErr.status "requested bucket name is not available" 409)
    else mkdirAll fs (normPath (st.path ++ "/" ++ name))

/-- `Storage.Get`.  Reading the two files of the object namespace is
inlined: a missing or non-file node is the wrapped `os.ReadFile` error, a
raw-bytes node at `metadata.json` is the `json.Unmarshal` error. -/
def Get (st : Storage) (fs : FS) (bucket key : String) : Except GoErr (List Nat) :=
  if !(existPath st fs bucket) then
    Except.error (GoErr.status "requested bucket does not exist" 404)
  else
    let hash := Sha256Hash (strBytes key)
    if !(existPath st fs (bucket ++ "/" ++ hash)) then
      Except.error (GoErr.status "object under requested key does not exist" 404)
    else
      let path := st.path ++ "/" ++ bucket ++ "/" ++ hash
      match fsFind fs (normPath (path ++ "/body")) with
      | some (Node.bodyFile body) =>
        (match fsFind fs (normPath (path ++ "/metadata.json")) with
         | some (Node.metaFile meta) =>
           if Sha256Hash body ≠ meta.contentHash then
             Except.error (GoErr.plain "content checksum mismatch")
           else Except.ok body
         | some _ => Except.error (GoErr.plain "could not unmarshal metadata.json content")
         | none => Except.error (GoErr.plain "could not read metadata file"))
      | some _ => Except.error (GoErr.plain "could not read data file")
      | none => Except.error (GoErr.plain "could not read data file")

/-- `Storage.Put`; `now` is the wall-clock input of the environment
(`time.Now().UTC().Unix()`). -/
def Put (st : Storage) (fs : FS) (bucket key : String) (body : List Nat) (now : Int) :
    Except GoErr FS :=
  if !(existPath st fs bucket) then
    Except.error (GoErr.status "requested bucket does not exist" 404)
  else
    let hash := Sha256Hash (strBytes key)
    let dir := st.path ++ "/" ++ bucket ++ "/" ++ hash
    match mkdirAll fs (normPath dir) with
    | Except.error e => Except.error e
    | Except.ok fs1 =>
      let meta : Metadata := ⟨Sha256Hash body, body.length, key, now⟩
      match writeFile fs1 (normPath (dir ++ "/metadata.json")) (Node.metaFile meta) with
      | Except.error _ => Except.error (GoErr.plain "could not write metadata.json")
      | Except.ok fs2 => writeFile fs2 (normPath (dir ++ "/body")) (Node.bodyFile body)

/-- `Storage.Delete`. -/
def Delete (st : Storage) (fs : FS) (bucket key : String) : Except GoErr FS :=
  if !(existPath st fs bucket) then
    Except.error (GoErr.status "requested bucket does not exist" 404)
  else
    let hash := Sha256Hash (strBytes key)
    if !(existPath st fs (bucket ++ "/" ++ hash)) then
      Except.error (GoErr.status "object under requested key does not exist" 404)
    else Except.ok (removeAll fs (normPath (st.path ++ "/" ++ bucket ++ "/" ++ hash)))

/-! ## Derived and spec-modelled definitions used in theorem statements -/

/-- The raw authorization header value Validate inspects. -/
def authHeaderValue (headers : Headers) : String := hlookup headers "authorization"

/-- The key-value map Validate's parse step builds from the authorization
header (meaningful once the algorithm-prefix check has passed). -/
def parsedKV (headers : Headers) : String → String :=
  kvOf (goSplit (dropStr (authHeaderValue headers) (signAlgorithm ++ " ").data.length) ',')

/-- The parsed header record Validate works with (meaningful once both
prefix checks have passed). -/
def parsedAH (a : Auth) (headers : Headers) : AuthHeader :=
  ⟨dropStr (parsedKV headers "Credential") (a.accessKey ++ "/").data.length,
   parsedKV headers "SignedHeaders", parsedKV headers "Signature"⟩

/-- The signed-header names of a request, parsed from its authorization
header (empty when parsing fails). -/
def signedNamesOf (a : Auth) (headers : Headers) : List String :=
  goSplit (((parseAuthHeader a (authHeaderValue headers)).toOption.map
    (fun ah => ah.signedHeaders)).getD "") ';'

/-- Modelled from the spec: "the path portion of the request URI before
`?`" — everything before the first question mark. -/
def specUriPath (uri : String) : String :=
  String.mk (uri.data.takeWhile (fun c => c != '?'))

/-- Modelled from the spec: "the portion after `?` (empty string if
absent)". -/
def specQueryPortion (uri : String) : String :=
  match splitN2 uri '?' with
  | [_, rest] => rest
  | _ => ""

/-- Join strings with `&` separators. -/
def joinAmp : List String → String
  | [] => ""
  | x :: xs => xs.foldl (fun acc v => acc ++ "&" ++ v) x

/-- Modelled from the spec: "split the portion after `?` (empty string if
absent) on `&`, lexicographically sort the resulting key=value tokens as
opaque strings, rejoin with `&`". -/
def specCanonicalQuery (uri : String) : String :=
  joinAmp (sortStrings (goSplit (specQueryPortion uri) '&'))

/-- Modelled from the spec: the claimed character class of the bucket
naming rule — "a lowercase ASCII letter (a-z), an ASCII digit (0-9), '.',
or '-'". -/
def specAsciiAllowed (c : Char) : Bool :=
  decide (('a' ≤ c ∧ c ≤ 'z') ∨ ('0' ≤ c ∧ c ≤ '9') ∨ c = '.' ∨ c = '-')

/-! ## Concrete instances used by witnesses and counterexamples -/

/-- A store rooted at `./data`, as in the repository's main. -/
def wSt : Storage := ⟨"./data"⟩

def wFs0 : FS := [(["data"], Node.dir)]

def wFs1 : FS := (NewBucket wSt wFs0 "abc").toOption.getD []

def wFs2 : FS := (Put wSt wFs1 "abc" "k" [104, 105] 7).toOption.getD []

def wFs3 : FS := (Put wSt wFs2 "abc" "k" [1, 2, 3] 8).toOption.getD []

def wFs4 : FS := (Delete wSt wFs2 "abc" "k").toOption.getD []

def wFsIso : FS := (Put wSt wFs1 "abc" "k" [7] 0).toOption.getD []

def wHashK : String := Sha256Hash (strBytes "k")

/-- A metadata record whose hash does not match the stored body `[1]`. -/
def wMetaBad : Metadata := ⟨"0000", 1, "k", 0⟩

/-- A state corrupted out-of-band: the body bytes hash differently from
the recorded `content_sha256`. -/
def wFsBad : FS :=
  [(["data"], Node.dir), (["data", "abc"], Node.dir),
   (["data", "abc", wHashK], Node.dir),
   (["data", "abc", wHashK, "body"], Node.bodyFile [1]),
   (["data", "abc", wHashK, "metadata.json"], Node.metaFile wMetaBad)]

def cexAuth : Auth := ⟨"AKID", "SK"⟩

/-- An authorization header carrying the correct SigV4 signature for
method GET, URI /x, host header h, date 20250101T000000Z and body-hash
string bh under the key pair (AKID, SK). -/
def cexAuthStr : String :=
  "AWS4-HMAC-SHA256 Credential=AKID/s, SignedHeaders=host, Signature=f917ffd4d3bf8688ce6a328e16d6d55bfce32367b38b564b8cb24c90f71839fe"

def cexHdrs1 : Headers :=
  [("host", "h"), ("x-amz-date", "20250101T000000Z"), ("authorization", cexAuthStr)]

/-- `cexHdrs1` with only the (unsigned) `x-amz-date` header changed. -/
def cexHdrs2 : Headers :=
  [("host", "h"), ("x-amz-date", "20250101T000001Z"), ("authorization", cexAuthStr)]

def wAuthStr : String :=
  "AWS4-HMAC-SHA256 Credential=AKID/s, SignedHeaders=host, Signature=x"

def wHdrs1 : Headers :=
  [("host", "h"), ("foo", "1"), ("x-amz-date", "d"), ("authorization", wAuthStr)]

/-- `wHdrs1` with only the unsigned `foo` header changed. -/
def wHdrs2 : Headers :=
  [("host", "h"), ("foo", "2"), ("x-amz-date", "d"), ("authorization", wAuthStr)]

/-! ## Lemmas: the filesystem model -/

theorem fsFind_fsSet_self (fs : FS) (p : FsPath) (n : Node) :
    fsFind (fsSet fs p n) p = some n := by
  simp [fsSet, fsFind]

theorem fsFind_fsSet_ne (fs : FS) (p q : FsPath) (n : Node) (h : p ≠ q) :
    fsFind (fsSet fs p n) q = fsFind fs q := by
  simp [fsSet, fsFind, h]

theorem fsFind_fsSet_isSome (fs : FS) (p q : FsPath) (n : Node)
    (h : (fsFind fs q).isSome = true) : (fsFind (fsSet fs p n) q).isSome = true := by
  by_cases hpq : p = q <;> simp [fsSet, fsFind, hpq, h]

theorem isPrefixOf_refl (l : FsPath) : l.isPrefixOf l = true := by
  induction l with
  | nil => rfl
  | cons a t ih => simp [List.isPrefixOf, ih]

theorem isPrefixOf_length_le (l₁ l₂ : FsPath) (h : l₁.isPrefixOf l₂ = true) :
    l₁.length ≤ l₂.length := by
  induction l₁ generalizing l₂ with
  | nil => simp
  | cons a t ih =>
    cases l₂ with
    | nil => simp [List.isPrefixOf] at h
    | cons b t₂ =>
      simp only [List.isPrefixOf, Bool.and_eq_true] at h
      simpa using ih t₂ h.2

theorem append_singleton_not_isPrefixOf (l : FsPath) (x : String) :
    (l ++ [x]).isPrefixOf l = false := by
  by_contra h
  have h' : (l ++ [x]).isPrefixOf l = true := by
    revert h; cases (l ++ [x]).isPrefixOf l <;> simp
  have := isPrefixOf_length_le _ _ h'
  simp at this

theorem append_cons_not_isPrefixOf (r : FsPath) (A B : String) (t₁ t₂ : List String)
    (hAB : A ≠ B) : (r ++ A :: t₁).isPrefixOf (r ++ B :: t₂) = false := by
  induction r with
  | nil => simp [List.isPrefixOf, hAB]
  | cons c r ih => simp [List.isPrefixOf, ih]

theorem fsFind_removeAll_none (fs : FS) (p q : FsPath) (h : p.isPrefixOf q = true) :
    fsFind (removeAll fs p) q = none := by
  induction fs with
  | nil => rfl
  | cons e rest ih =>
    obtain ⟨k, n⟩ := e
    simp only [removeAll]
    by_cases hk : p.isPrefixOf k = true
    · rw [if_pos hk]; exact ih
    · rw [if_neg hk]
      have hne : k ≠ q := by
        intro he; subst he; exact hk h
      simp only [fsFind, if_neg hne]
      exact ih

theorem fsFind_removeAll_other (fs : FS) (p q : FsPath) (h : p.isPrefixOf q = false) :
    fsFind (removeAll fs p) q = fsFind fs q := by
  induction fs with
  | nil => rfl
  | cons e rest ih =>
    obtain ⟨k, n⟩ := e
    simp only [removeAll]
    by_cases hk : p.isPrefixOf k = true
    · have hne : k ≠ q := by
        intro he; subst he; rw [hk] at h; exact Bool.noConfusion h
      rw [if_pos hk, ih]
      simp [fsFind, hne]
    · rw [if_neg hk]
      by_cases hkq : k = q
      · subst hkq; simp [fsFind, ih]
      · simp [fsFind, hkq, ih]

theorem self_mem_pathPrefixes (p : FsPath) (h : p ≠ []) : p ∈ pathPrefixes p := by
  induction p with
  | nil => exact absurd rfl h
  | cons a t ih =>
    cases t with
    | nil => simp [pathPrefixes]
    | cons b t₂ =>
      show a :: b :: t₂ ∈ [a] :: (pathPrefixes (b :: t₂)).map (fun q => a :: q)
      exact List.mem_cons_of_mem _ (List.mem_map.mpr ⟨b :: t₂, ih (by simp), rfl⟩)

theorem mem_pathPrefixes_append (p q : FsPath) (h : q ∈ pathPrefixes p) :
    ∃ t, q ++ t = p := by
  induction p generalizing q with
  | nil => simp [pathPrefixes] at h
  | cons a rest ih =>
    simp only [pathPrefixes, List.mem_cons, List.mem_map] at h
    rcases h with h | ⟨q₂, hq₂, rfl⟩
    · exact ⟨rest, by simp [h]⟩
    · obtain ⟨t, ht⟩ := ih q₂ hq₂
      exact ⟨t, by simp [ht]⟩

theorem mkdirFold_spec (l : List FsPath) (fs fs' : FS)
    (h : List.foldlM mkdirStep fs l = Except.ok fs') :
    (∀ q, q ∉ l → fsFind fs' q = fsFind fs q) ∧
      (∀ q, q ∈ l → fsFind fs' q = some Node.dir) := by
  induction l generalizing fs with
  | nil =>
    simp only [List.foldlM_nil] at h
    cases h
    exact ⟨fun _ _ => rfl, fun q hq => absurd hq (List.not_mem_nil q)⟩
  | cons a t ih =>
    rw [List.foldlM_cons] at h
    cases h1 : mkdirStep fs a with
    | error e => rw [h1] at h; exact Except.noConfusion h
    | ok fs1 =>
      rw [h1] at h
      have h2 : List.foldlM mkdirStep fs1 t = Except.ok fs' := h
      obtain ⟨hout, hin⟩ := ih fs1 h2
      have step : (fsFind fs1 a = some Node.dir) ∧ ∀ q, q ≠ a → fsFind fs1 q = fsFind fs q := by
        unfold mkdirStep at h1
        cases hf : fsFind fs a with
        | none =>
          rw [hf] at h1
          cases h1
          exact ⟨fsFind_fsSet_self _ _ _, fun q hq => fsFind_fsSet_ne _ _ _ _ (Ne.symm hq)⟩
        | some n =>
          rw [hf] at h1
          cases n with
          | dir => cases h1; exact ⟨hf, fun _ _ => rfl⟩
          | bodyFile d => exact absurd h1 (by simp)
          | metaFile m => exact absurd h1 (by simp)
      constructor
      · intro q hq
        have hqa : q ≠ a := fun he => hq (he ▸ List.mem_cons_self a t)
        have hqt : q ∉ t := fun ht => hq (List.mem_cons_of_mem a ht)
        rw [hout q hqt, step.2 q hqa]
      · intro q hq
        by_cases hqt : q ∈ t
        · exact hin q hqt
        · have hqa : q = a := by
            rcases List.mem_cons.mp hq with h | h
            · exact h
            · exact absurd h hqt
          subst hqa
          rw [hout q hqt, step.1]

theorem mkdirAll_mem (fs fs' : FS) (p q : FsPath) (h : mkdirAll fs p = Except.ok fs')
    (hq : q ∈ pathPrefixes p) : fsFind fs' q = some Node.dir :=
  (mkdirFold_spec _ _ _ h).2 q hq

theorem mkdirAll_frame (fs fs' : FS) (p q : FsPath) (h : mkdirAll fs p = Except.ok fs')
    (hq : q ∉ pathPrefixes p) : fsFind fs' q = fsFind fs q :=
  (mkdirFold_spec _ _ _ h).1 q hq

theorem mkdirAll_isSome (fs fs' : FS) (p q : FsPath) (h : mkdirAll fs p = Except.ok fs')
    (hq : (fsFind fs q).isSome = true) : (fsFind fs' q).isSome = true := by
  by_cases hm : q ∈ pathPrefixes p
  · rw [mkdirAll_mem fs fs' p q h hm]; rfl
  · rw [mkdirAll_frame fs fs' p q h hm]; exact hq

theorem writeFile_ok (fs fs' : FS) (p : FsPath) (n : Node)
    (h : writeFile fs p n = Except.ok fs') : fs' = fsSet fs p n := by
  unfold writeFile at h
  split at h
  · split at h
    · exact absurd h (by simp)
    · cases h; rfl
  · exact absurd h (by simp)

/-! ## Lemmas: strings, splitting and path normalization -/

theorem sdata_append (a b : String) : (a ++ b).data = a.data ++ b.data := by
  cases a; cases b; rfl

theorem sdata_inj {a b : String} (h : a.data = b.data) : a = b := by
  cases a; cases b; exact congrArg String.mk (by simpa using h)

theorem smk_data (s : String) : String.mk s.data = s := by cases s; rfl

theorem sappend_assoc (a b c : String) : a ++ b ++ c = a ++ (b ++ c) :=
  sdata_inj (by simp [sdata_append])

theorem path_assoc (x b h : String) : x ++ "/" ++ (b ++ "/" ++ h) = x ++ "/" ++ b ++ "/" ++ h :=
  sdata_inj (by simp [sdata_append])

theorem splitChAux_ne_nil (sep : Char) (l : List Char) : splitChAux sep l ≠ [] := by
  induction l with
  | nil => simp [splitChAux]
  | cons c cs ih =>
    cases hr : splitChAux sep cs with
    | nil => exact absurd hr ih
    | cons x xs => by_cases hc : c = sep <;> simp [splitChAux, hr, hc]

theorem splitChAux_append (sep : Char) (xs ys : List Char) :
    splitChAux sep (xs ++ sep :: ys) = splitChAux sep xs ++ splitChAux sep ys := by
  induction xs with
  | nil => simp [splitChAux]
  | cons c cs ih =>
    by_cases hc : c = sep
    · simp [splitChAux, hc, ih]
    · obtain ⟨x, xs', hx⟩ : ∃ x xs', splitChAux sep cs = x :: xs' := by
        cases hr : splitChAux sep cs with
        | nil => exact absurd hr (splitChAux_ne_nil sep cs)
        | cons x xs' => exact ⟨x, xs', rfl⟩
      simp [splitChAux, hc, ih, hx]

theorem splitChAux_no_sep (sep : Char) (l : List Char) (h : ∀ c ∈ l, c ≠ sep) :
    splitChAux sep l = [l] := by
  induction l with
  | nil => rfl
  | cons c cs ih =>
    have hc : c ≠ sep := h c (by simp)
    have ih' := ih (fun d hd => h d (by simp [hd]))
    simp [splitChAux, hc, ih']

theorem goSplit_slash (x y : String) :
    goSplit (x ++ "/" ++ y) '/' = goSplit x '/' ++ goSplit y '/' := by
  unfold goSplit
  rw [sdata_append, sdata_append]
  have h1 : ("/" : String).data = ['/'] := rfl
  rw [h1, List.append_assoc, List.singleton_append, splitChAux_append, List.map_append]

theorem goSplit_single (s : String) (sep : Char) (h : ∀ c ∈ s.data, c ≠ sep) :
    goSplit s sep = [s] := by
  unfold goSplit
  rw [splitChAux_no_sep sep s.data h]
  simp [smk_data]

theorem normSegs_append_single (xs : List String) (s : String)
    (h1 : s ≠ "") (h2 : s ≠ ".") (h3 : s ≠ "..") :
    normSegs (xs ++ [s]) = normSegs xs ++ [s] := by
  unfold normSegs
  rw [List.foldl_append]
  simp [h1, h2, h3]

theorem normPath_append_seg (x s : String) (hslash : ∀ c ∈ s.data, c ≠ '/')
    (h1 : s ≠ "") (h2 : s ≠ ".") (h3 : s ≠ "..") :
    normPath (x ++ "/" ++ s) = normPath x ++ [s] := by
  unfold normPath
  rw [goSplit_slash, goSplit_single s '/' hslash, normSegs_append_single _ s h1 h2 h3]

/-! ## Lemmas: shape of hex-encoded hashes -/

theorem sha256_length (msg : List Nat) : (sha256 msg).length = 32 := by
  simp [sha256, wordBytes]

theorem hexEncode_data (bs : List Nat) :
    (hexEncode bs).data =
      bs.foldr (fun b acc => hexDigit (b / 16) :: hexDigit (b % 16) :: acc) [] := rfl

theorem hexEncode_data_length (bs : List Nat) : (hexEncode bs).data.length = 2 * bs.length := by
  rw [hexEncode_data]
  induction bs with
  | nil => rfl
  | cons b t ih =>
    simp only [List.foldr_cons, List.length_cons, ih]
    omega

theorem hexDigit_cases : ∀ m : Nat, m < 16 →
    (if m < 10 then Char.ofNat (48 + m) else Char.ofNat (87 + m)) ≠ '/' ∧
    (if m < 10 then Char.ofNat (48 + m) else Char.ofNat (87 + m)) ≠ '.' := by decide

theorem hexDigit_ne_slash (n : Nat) : hexDigit n ≠ '/' :=
  (hexDigit_cases (n % 16) (Nat.mod_lt _ (by omega))).1

theorem hexEncode_no_slash (bs : List Nat) : ∀ c ∈ (hexEncode bs).data, c ≠ '/' := by
  rw [hexEncode_data]
  induction bs with
  | nil => simp
  | cons b t ih =>
    intro c hc
    simp only [List.foldr_cons, List.mem_cons] at hc
    rcases hc with rfl | rfl | hc
    · exact hexDigit_ne_slash _
    · exact hexDigit_ne_slash _
    · exact ih c hc

theorem shaHash_data_length (bs : List Nat) : (Sha256Hash bs).data.length = 64 := by
  unfold Sha256Hash
  rw [hexEncode_data_length, sha256_length]

theorem shaHash_no_slash (bs : List Nat) : ∀ c ∈ (Sha256Hash bs).data, c ≠ '/' :=
  hexEncode_no_slash (sha256 bs)

theorem shaHash_ne_short (bs : List Nat) :
    Sha256Hash bs ≠ "" ∧ Sha256Hash bs ≠ "." ∧ Sha256Hash bs ≠ ".." := by
  refine ⟨?_, ?_, ?_⟩ <;> intro h <;>
    (have h2 := congrArg List.length (congrArg String.data h)
     rw [shaHash_data_length] at h2
     exact absurd h2 (by decide))

theorem normPath_hash_seg (x : String) (bs : List Nat) :
    normPath (x ++ "/" ++ Sha256Hash bs) = normPath x ++ [Sha256Hash bs] :=
  normPath_append_seg x _ (shaHash_no_slash bs) (shaHash_ne_short bs).1
    (shaHash_ne_short bs).2.1 (shaHash_ne_short bs).2.2

theorem normPath_body_seg (x : String) : normPath (x ++ "/body") = normPath x ++ ["body"] := by
  have h : x ++ "/body" = x ++ "/" ++ "body" := by rw [sappend_assoc]; rfl
  rw [h, normPath_append_seg x "body" (by decide) (by decide) (by decide) (by decide)]

theorem normPath_meta_seg (x : String) :
    normPath (x ++ "/metadata.json") = normPath x ++ ["metadata.json"] := by
  have h : x ++ "/metadata.json" = x ++ "/" ++ "metadata.json" := by
    rw [sappend_assoc]; rfl
  rw [h, normPath_append_seg x "metadata.json" (by decide) (by decide) (by decide) (by decide)]

/-! ## Lemmas: validName and the store operations -/

theorem validName_ge3 (name : String) (h : validName name = none) :
    ¬ (strBytes name).length < 3 := by
  intro h1
  unfold validName at h
  rw [if_pos h1] at h
  exact Option.noConfusion h

theorem validName_le63 (name : String) (h : validName name = none) :
    ¬ 63 < (strBytes name).length := by
  intro h2
  have h1 := validName_ge3 name h
  unfold validName at h
  rw [if_neg h1, if_pos h2] at h
  exact Option.noConfusion h

theorem validName_all_chars (name : String) (h : validName name = none) :
    name.data.all allowedChar = true := by
  by_contra hc
  have hf : name.data.all allowedChar = false := by
    revert hc; cases name.data.all allowedChar <;> simp
  have h1 := validName_ge3 name h
  have h2 := validName_le63 name h
  unfold validName at h
  rw [if_neg h1, if_neg h2, hf] at h
  simp at h

theorem validName_clean (name : String) (h : validName name = none) :
    (∀ c ∈ name.data, c ≠ '/') ∧ name ≠ "" ∧ name ≠ "." ∧ name ≠ ".." := by
  have hall := validName_all_chars name h
  have hge3 := validName_ge3 name h
  refine ⟨?_, ?_, ?_, ?_⟩
  · intro c hc heq
    have hcc := (List.all_eq_true.mp hall) c hc
    rw [heq] at hcc
    exact absurd hcc (by decide)
  all_goals intro he; subst he; exact hge3 (by decide)

theorem normPath_valid_seg (x name : String) (h : validName name = none) :
    normPath (x ++ "/" ++ name) = normPath x ++ [name] := by
  obtain ⟨h1, h2, h3, h4⟩ := validName_clean name h
  exact normPath_append_seg x name h1 h2 h3 h4

theorem put_ok_parts (st : Storage) (fs fs' : FS) (b k : String) (body : List Nat) (now : Int)
    (h : Put st fs b k body now = Except.ok fs') :
    existPath st fs b = true ∧
      ∃ fs1, mkdirAll fs (normPath (st.path ++ "/" ++ b ++ "/" ++ Sha256Hash (strBytes k)))
          = Except.ok fs1 ∧
        fs' = fsSet
          (fsSet fs1
            (normPath (st.path ++ "/" ++ b ++ "/" ++ Sha256Hash (strBytes k) ++ "/metadata.json"))
            (Node.metaFile ⟨Sha256Hash body, body.length, k, now⟩))
          (normPath (st.path ++ "/" ++ b ++ "/" ++ Sha256Hash (strBytes k) ++ "/body"))
          (Node.bodyFile body) := by
  unfold Put at h
  cases hex : existPath st fs b with
  | false => rw [hex] at h; exact absurd h (by simp)
  | true =>
    rw [hex] at h
    simp only [Bool.not_true, Bool.false_eq_true, if_false] at h
    cases hmk : mkdirAll fs (normPath (st.path ++ "/" ++ b ++ "/" ++ Sha256Hash (strBytes k))) with
    | error e => rw [hmk] at h; simp at h
    | ok fs1 =>
      rw [hmk] at h
      dsimp only at h
      cases hw1 : writeFile fs1
          (normPath (st.path ++ "/" ++ b ++ "/" ++ Sha256Hash (strBytes k) ++ "/metadata.json"))
          (Node.metaFile ⟨Sha256Hash body, body.length, k, now⟩) with
      | error e1 => rw [hw1] at h; simp at h
      | ok fs2 =>
        rw [hw1] at h
        dsimp only at h
        refine ⟨rfl, fs1, rfl, ?_⟩
        rw [← writeFile_ok fs1 fs2 _ _ hw1]
        exact (writeFile_ok fs2 fs' _ _ h).symm ▸ (writeFile_ok fs2 fs' _ _ h)

theorem path_len_ne (P : FsPath) (x : String) : P ++ [x] ≠ P := by
  intro hc
  have hlen := congrArg List.length hc
  simp at hlen

/-- C1: after `Put(bucket, key, body)` succeeds on a bucket name accepted
by `validName` and created by `NewBucket`, `Get(bucket, key)` returns
exactly `body`, byte for byte, whatever the prior state `fs` — and hence
whatever earlier Puts, including Puts to the same key — was; consequently
an earlier body `bodyA ≠ body` is never returned. -/
theorem put_get_roundtrip (st : Storage) (fs0 fs1 fs fs' : FS) (b k : String)
    (body : List Nat) (now : Int)
    (hname : validName b = none)
    (hnb : NewBucket st fs0 b = Except.ok fs1)
    (hput : Put st fs b k body now = Except.ok fs') :
    Get st fs' b k = Except.ok body ∧
      ∀ bodyA : List Nat, bodyA ≠ body → Get st fs' b k ≠ Except.ok bodyA := by
  obtain ⟨hex, fsm, hmk, hfs'⟩ := put_ok_parts st fs fs' b k body now hput
  have hQP : normPath (st.path ++ "/" ++ b ++ "/" ++ Sha256Hash (strBytes k)) =
      normPath (st.path ++ "/" ++ b) ++ [Sha256Hash (strBytes k)] :=
    normPath_hash_seg (st.path ++ "/" ++ b) (strBytes k)
  have hPB : normPath (st.path ++ "/" ++ b ++ "/" ++ Sha256Hash (strBytes k) ++ "/body") =
      normPath (st.path ++ "/" ++ b ++ "/" ++ Sha256Hash (strBytes k)) ++ ["body"] :=
    normPath_body_seg _
  have hPM : normPath (st.path ++ "/" ++ b ++ "/" ++ Sha256Hash (strBytes k) ++ "/metadata.json") =
      normPath (st.path ++ "/" ++ b ++ "/" ++ Sha256Hash (strBytes k)) ++ ["metadata.json"] :=
    normPath_meta_seg _
  have hneBP : normPath (st.path ++ "/" ++ b ++ "/" ++ Sha256Hash (strBytes k) ++ "/body") ≠
      normPath (st.path ++ "/" ++ b ++ "/" ++ Sha256Hash (strBytes k)) := by
    rw [hPB]; exact path_len_ne _ _
  have hneMP : normPath (st.path ++ "/" ++ b ++ "/" ++ Sha256Hash (strBytes k) ++ "/metadata.json") ≠
      normPath (st.path ++ "/" ++ b ++ "/" ++ Sha256Hash (strBytes k)) := by
    rw [hPM]; exact path_len_ne _ _
  have hneBM : normPath (st.path ++ "/" ++ b ++ "/" ++ Sha256Hash (strBytes k) ++ "/body") ≠
      normPath (st.path ++ "/" ++ b ++ "/" ++ Sha256Hash (strBytes k) ++ "/metadata.json") := by
    rw [hPB, hPM]
    simp
  have hPne : normPath (st.path ++ "/" ++ b ++ "/" ++ Sha256Hash (strBytes k)) ≠ [] := by
    rw [hQP]; simp
  have hPdir : fsFind fsm (normPath (st.path ++ "/" ++ b ++ "/" ++ Sha256Hash (strBytes k))) =
      some Node.dir :=
    mkdirAll_mem _ _ _ _ hmk (self_mem_pathPrefixes _ hPne)
  have e1 : (fsFind fs' (normPath (st.path ++ "/" ++ b))).isSome = true := by
    rw [hfs']
    apply fsFind_fsSet_isSome
    apply fsFind_fsSet_isSome
    exact mkdirAll_isSome _ _ _ _ hmk hex
  have e2 : fsFind fs' (normPath (st.path ++ "/" ++ (b ++ "/" ++ Sha256Hash (strBytes k)))) =
      some Node.dir := by
    rw [path_assoc st.path b (Sha256Hash (strBytes k)), hfs',
      fsFind_fsSet_ne _ _ _ _ hneBP, fsFind_fsSet_ne _ _ _ _ hneMP]
    exact hPdir
  have e3 : fsFind fs' (normPath (st.path ++ "/" ++ b ++ "/" ++ Sha256Hash (strBytes k) ++ "/body"))
      = some (Node.bodyFile body) := by
    rw [hfs', fsFind_fsSet_self]
  have e4 : fsFind fs'
      (normPath (st.path ++ "/" ++ b ++ "/" ++ Sha256Hash (strBytes k) ++ "/metadata.json"))
      = some (Node.metaFile ⟨Sha256Hash body, body.length, k, now⟩) := by
    rw [hfs', fsFind_fsSet_ne _ _ _ _ hneBM, fsFind_fsSet_self]
  have hget : Get st fs' b k = Except.ok body := by
    simp only [Get, existPath]
    rw [e1, e2, e3, e4]
    simp
  refine ⟨hget, fun bodyA hA hcontra => hA ?_⟩
  rw [hget] at hcontra
  exact (Except.ok.inj hcontra).symm

set_option maxRecDepth 1000000 in
theorem put_get_roundtrip_witness :
    Get wSt wFs3 "abc" "k" = Except.ok [1, 2, 3] ∧
      ∀ bodyA : List Nat, bodyA ≠ [1, 2, 3] → Get wSt wFs3 "abc" "k" ≠ Except.ok bodyA :=
  put_get_roundtrip wSt wFs0 wFs1 wFs2 wFs3 "abc" "k" [1, 2, 3] 8 (by decide) (by decide)
    (by decide)

theorem delete_ok_parts (st : Storage) (fs fs' : FS) (b k : String)
    (h : Delete st fs b k = Except.ok fs') :
    existPath st fs b = true ∧
      existPath st fs (b ++ "/" ++ Sha256Hash (strBytes k)) = true ∧
      fs' = removeAll fs (normPath (st.path ++ "/" ++ b ++ "/" ++ Sha256Hash (strBytes k))) := by
  unfold Delete at h
  cases hex : existPath st fs b with
  | false => rw [hex] at h; exact absurd h (by simp)
  | true =>
    rw [hex] at h
    simp only [Bool.not_true, Bool.false_eq_true, if_false] at h
    cases ho : existPath st fs (b ++ "/" ++ Sha256Hash (strBytes k)) with
    | false => rw [ho] at h; simp at h
    | true =>
      rw [ho] at h
      simp only [Bool.not_true, Bool.false_eq_true, if_false] at h
      exact ⟨rfl, rfl, (Except.ok.inj h).symm⟩

/-- C6: after a successful `Delete(bucket, key)`, `Get(bucket, key)` fails
with the object-not-found error and a second `Delete(bucket, key)` also
fails with the object-not-found error rather than succeeding; `Delete` on
a bucket that does not exist fails with the bucket-not-found error. -/
theorem delete_finality (st : Storage) (fs fs' : FS) (b k : String)
    (hdel : Delete st fs b k = Except.ok fs') :
    Get st fs' b k = Except.error (GoErr.status "object under requested key does not exist" 404) ∧
      Delete st fs' b k =
        Except.error (GoErr.status "object under requested key does not exist" 404) ∧
      ∀ (fs2 : FS) (b2 k2 : String), existPath st fs2 b2 = false →
        Delete st fs2 b2 k2 =
          Except.error (GoErr.status "requested bucket does not exist" 404) := by
  obtain ⟨hex, ho, hfs'⟩ := delete_ok_parts st fs fs' b k hdel
  have hQP : normPath (st.path ++ "/" ++ b ++ "/" ++ Sha256Hash (strBytes k)) =
      normPath (st.path ++ "/" ++ b) ++ [Sha256Hash (strBytes k)] :=
    normPath_hash_seg (st.path ++ "/" ++ b) (strBytes k)
  have hpf : (normPath (st.path ++ "/" ++ b ++ "/" ++ Sha256Hash (strBytes k))).isPrefixOf
      (normPath (st.path ++ "/" ++ b)) = false := by
    rw [hQP]; exact append_singleton_not_isPrefixOf _ _
  have e1 : (fsFind fs' (normPath (st.path ++ "/" ++ b))).isSome = true := by
    rw [hfs', fsFind_removeAll_other _ _ _ hpf]
    exact hex
  have e2 : fsFind fs' (normPath (st.path ++ "/" ++ (b ++ "/" ++ Sha256Hash (strBytes k)))) =
      none := by
    rw [path_assoc st.path b (Sha256Hash (strBytes k)), hfs']
    exact fsFind_removeAll_none _ _ _ (isPrefixOf_refl _)
  refine ⟨?_, ?_, ?_⟩
  · simp only [Get, existPath]
    simp only [e1, e2]
    simp
  · simp only [Delete, existPath]
    simp only [e1, e2]
    simp
  · intro fs2 b2 k2 h2
    simp only [Delete]
    rw [h2]
    simp

set_option maxRecDepth 1000000 in
theorem delete_finality_witness :
    Get wSt wFs4 "abc" "k" =
        Except.error (GoErr.status "object under requested key does not exist" 404) ∧
      Delete wSt wFs4 "abc" "k" =
        Except.error (GoErr.status "object under requested key does not exist" 404) ∧
      ∀ (fs2 : FS) (b2 k2 : String), existPath wSt fs2 b2 = false →
        Delete wSt fs2 b2 k2 =
          Except.error (GoErr.status "requested bucket does not exist" 404) :=
  delete_finality wSt wFs2 wFs4 "abc" "k" (by decide)

/-- C5: in a state where the bucket and the object namespace for
`(bucket, key)` both exist but the stored body bytes hash differently from
the `content_sha256` recorded in the object's metadata, `Get(bucket, key)`
fails with the checksum-mismatch error — it never returns the mismatching
body — and that error is distinct from the object-not-found error. -/
theorem integrity_detection (st : Storage) (fs : FS) (b k : String) (data : List Nat)
    (meta : Metadata)
    (hb : existPath st fs b = true)
    (ho : existPath st fs (b ++ "/" ++ Sha256Hash (strBytes k)) = true)
    (hbody : fsFind fs
        (normPath (st.path ++ "/" ++ b ++ "/" ++ Sha256Hash (strBytes k) ++ "/body")) =
      some (Node.bodyFile data))
    (hmeta : fsFind fs
        (normPath (st.path ++ "/" ++ b ++ "/" ++ Sha256Hash (strBytes k) ++ "/metadata.json")) =
      some (Node.metaFile meta))
    (hne : Sha256Hash data ≠ meta.contentHash) :
    Get st fs b k = Except.error (GoErr.plain "content checksum mismatch") ∧
      GoErr.plain "content checksum mismatch" ≠
        GoErr.status "object under requested key does not exist" 404 := by
  refine ⟨?_, by simp⟩
  simp only [Get]
  rw [hb, ho]
  simp only [Bool.not_true, Bool.false_eq_true, if_false]
  rw [hbody, hmeta]
  simp [hne]

set_option maxRecDepth 1000000 in
theorem integrity_detection_witness :
    Get wSt wFsBad "abc" "k" = Except.error (GoErr.plain "content checksum mismatch") ∧
      GoErr.plain "content checksum mismatch" ≠
        GoErr.status "object under requested key does not exist" 404 :=
  integrity_detection wSt wFsBad "abc" "k" [1] wMetaBad (by decide) (by decide) (by decide)
    (by decide) (by decide)

theorem put_frame (st : Storage) (fs fs' : FS) (A k : String) (body : List Nat) (now : Int)
    (hA : validName A = none) (hput : Put st fs A k body now = Except.ok fs')
    (B : String) (hAB : B ≠ A) (tail : List String) :
    fsFind fs' (normPath st.path ++ B :: tail) = fsFind fs (normPath st.path ++ B :: tail) := by
  obtain ⟨hex, fsm, hmk, hfs'⟩ := put_ok_parts st fs fs' A k body now hput
  have hPA : normPath (st.path ++ "/" ++ A) = normPath st.path ++ [A] :=
    normPath_valid_seg _ _ hA
  have hP : normPath (st.path ++ "/" ++ A ++ "/" ++ Sha256Hash (strBytes k)) =
      normPath st.path ++ A :: [Sha256Hash (strBytes k)] := by
    rw [normPath_hash_seg (st.path ++ "/" ++ A) (strBytes k), hPA, List.append_assoc]
    rfl
  have hPB : normPath (st.path ++ "/" ++ A ++ "/" ++ Sha256Hash (strBytes k) ++ "/body") =
      normPath st.path ++ A :: [Sha256Hash (strBytes k), "body"] := by
    rw [normPath_body_seg, hP, List.append_assoc]
    rfl
  have hPM : normPath
        (st.path ++ "/" ++ A ++ "/" ++ Sha256Hash (strBytes k) ++ "/metadata.json") =
      normPath st.path ++ A :: [Sha256Hash (strBytes k), "metadata.json"] := by
    rw [normPath_meta_seg, hP, List.append_assoc]
    rfl
  have hq1 : normPath st.path ++ B :: tail ∉
      pathPrefixes (normPath (st.path ++ "/" ++ A ++ "/" ++ Sha256Hash (strBytes k))) := by
    intro hmem
    obtain ⟨t, ht⟩ := mem_pathPrefixes_append _ _ hmem
    rw [hP, List.append_assoc] at ht
    have h2 : B :: (tail ++ t) = A :: [Sha256Hash (strBytes k)] := by
      have := List.append_cancel_left ht
      simpa using this
    injection h2 with h3 _
    exact hAB h3
  have hq2 : normPath st.path ++ B :: tail ≠
      normPath (st.path ++ "/" ++ A ++ "/" ++ Sha256Hash (strBytes k) ++ "/body") := by
    rw [hPB]
    intro hc
    have h2 := List.append_cancel_left hc
    injection h2 with h3 _
    exact hAB h3
  have hq3 : normPath st.path ++ B :: tail ≠
      normPath (st.path ++ "/" ++ A ++ "/" ++ Sha256Hash (strBytes k) ++ "/metadata.json") := by
    rw [hPM]
    intro hc
    have h2 := List.append_cancel_left hc
    injection h2 with h3 _
    exact hAB h3
  rw [hfs', fsFind_fsSet_ne _ _ _ _ (Ne.symm hq2), fsFind_fsSet_ne _ _ _ _ (Ne.symm hq3)]
  exact mkdirAll_frame _ _ _ _ hmk hq1

/-- C4 (amended): for two distinct bucket names both accepted by
`validName` — distinct arbitrary strings may alias the same directory,
e.g. `"abc"` and `"./abc"`, see the counterexample — a `Put` under
`bucketA` leaves the result of `Get(bucketB, key)` entirely unchanged, so
an object stored under `bucketA` is never seen through `bucketB`. -/
theorem bucket_isolation (st : Storage) (fs fs' : FS) (bA bB k : String) (body : List Nat)
    (now : Int)
    (hvA : validName bA = none) (hvB : validName bB = none) (hne : bA ≠ bB)
    (hput : Put st fs bA k body now = Except.ok fs') :
    Get st fs' bB k = Get st fs bB k := by
  have hBA : bB ≠ bA := Ne.symm hne
  have hPBb : normPath (st.path ++ "/" ++ bB) = normPath st.path ++ [bB] :=
    normPath_valid_seg _ _ hvB
  have f1 : fsFind fs' (normPath (st.path ++ "/" ++ bB)) =
      fsFind fs (normPath (st.path ++ "/" ++ bB)) := by
    rw [hPBb]
    exact put_frame st fs fs' bA k body now hvA hput bB hBA []
  have f2 : fsFind fs' (normPath (st.path ++ "/" ++ (bB ++ "/" ++ Sha256Hash (strBytes k)))) =
      fsFind fs (normPath (st.path ++ "/" ++ (bB ++ "/" ++ Sha256Hash (strBytes k)))) := by
    rw [path_assoc, normPath_hash_seg (st.path ++ "/" ++ bB) (strBytes k), hPBb,
      List.append_assoc]
    exact put_frame st fs fs' bA k body now hvA hput bB hBA _
  have f3 : fsFind fs'
        (normPath (st.path ++ "/" ++ bB ++ "/" ++ Sha256Hash (strBytes k) ++ "/body")) =
      fsFind fs (normPath (st.path ++ "/" ++ bB ++ "/" ++ Sha256Hash (strBytes k) ++ "/body")) := by
    rw [normPath_body_seg, normPath_hash_seg (st.path ++ "/" ++ bB) (strBytes k), hPBb,
      List.append_assoc, List.append_assoc]
    exact put_frame st fs fs' bA k body now hvA hput bB hBA _
  have f4 : fsFind fs'
        (normPath (st.path ++ "/" ++ bB ++ "/" ++ Sha256Hash (strBytes k) ++ "/metadata.json")) =
      fsFind fs
        (normPath (st.path ++ "/" ++ bB ++ "/" ++ Sha256Hash (strBytes k) ++ "/metadata.json")) := by
    rw [normPath_meta_seg, normPath_hash_seg (st.path ++ "/" ++ bB) (strBytes k), hPBb,
      List.append_assoc, List.append_assoc]
    exact put_frame st fs fs' bA k body now hvA hput bB hBA _
  simp only [Get, existPath, f1, f2, f3, f4]

set_option maxRecDepth 1000000 in
/-- C4 counterexample: bucket strings are used verbatim in filesystem
paths, so the distinct strings `"./abc"` and `"abc"` denote the same
directory; the body stored via `Put("./abc", "k", [7])` is then returned
by `Get("abc", "k")`, contradicting isolation for arbitrary distinct
bucket strings. -/
theorem bucket_isolation_cex :
    ("./abc" : String) ≠ "abc" ∧
      (Put wSt wFs1 "./abc" "k" [7] 0).toOption.map (fun f => Get wSt f "abc" "k") =
        some (Except.ok [7]) :=
  ⟨by decide, by decide⟩

set_option maxRecDepth 1000000 in
theorem bucket_isolation_witness : Get wSt wFsIso "bcd" "k" = Get wSt wFs1 "bcd" "k" :=
  bucket_isolation wSt wFs1 wFsIso "abc" "bcd" "k" [7] 0 (by decide) (by decide) (by decide)
    (by decide)

theorem mkdirFold_error (l : List FsPath) (fs : FS) (e : GoErr)
    (h : List.foldlM mkdirStep fs l = Except.error e) :
    e = GoErr.plain "mkdir: not a directory" := by
  induction l generalizing fs with
  | nil => exact Except.noConfusion h
  | cons a t ih =>
    rw [List.foldlM_cons] at h
    cases h1 : mkdirStep fs a with
    | error e1 =>
      rw [h1] at h
      have he : e1 = GoErr.plain "mkdir: not a directory" := by
        unfold mkdirStep at h1
        cases hf : fsFind fs a with
        | none => rw [hf] at h1; exact absurd h1 (by simp)
        | some n =>
          rw [hf] at h1
          cases n with
          | dir => exact absurd h1 (by simp)
          | bodyFile d => exact (Except.error.inj h1).symm
          | metaFile m => exact (Except.error.inj h1).symm
      have h2 : Except.error (α := FS) e1 = Except.error e := h
      exact (Except.error.inj h2) ▸ he
    | ok fs1 => rw [h1] at h; exact ih fs1 h

theorem mkdirAll_error (fs : FS) (p : FsPath) (e : GoErr)
    (h : mkdirAll fs p = Except.error e) : e = GoErr.plain "mkdir: not a directory" :=
  mkdirFold_error _ _ _ h

theorem writeFile_error (fs : FS) (p : FsPath) (n : Node) (e : GoErr)
    (h : writeFile fs p n = Except.error e) : ∃ m, e = GoErr.plain m := by
  unfold writeFile at h
  split at h
  · split at h
    · exact ⟨_, (Except.error.inj h).symm⟩
    · exact absurd h (by simp)
  · exact ⟨_, (Except.error.inj h).symm⟩

theorem put_error_class (st : Storage) (fs : FS) (b k : String) (body : List Nat) (now : Int)
    (e : GoErr) (h : Put st fs b k body now = Except.error e) :
    e = GoErr.status "requested bucket does not exist" 404 ∨ ∃ m, e = GoErr.plain m := by
  unfold Put at h
  cases hex : existPath st fs b with
  | false =>
    rw [hex] at h
    simp only [Bool.not_false, if_true] at h
    exact Or.inl (Except.error.inj h).symm
  | true =>
    rw [hex] at h
    simp only [Bool.not_true, Bool.false_eq_true, if_false] at h
    cases hmk : mkdirAll fs (normPath (st.path ++ "/" ++ b ++ "/" ++ Sha256Hash (strBytes k))) with
    | error e1 =>
      rw [hmk] at h
      dsimp only at h
      exact Or.inr ⟨_, (Except.error.inj h) ▸ mkdirAll_error _ _ _ hmk⟩
    | ok fs1 =>
      rw [hmk] at h
      dsimp only at h
      cases hw1 : writeFile fs1
          (normPath (st.path ++ "/" ++ b ++ "/" ++ Sha256Hash (strBytes k) ++ "/metadata.json"))
          (Node.metaFile ⟨Sha256Hash body, body.length, k, now⟩) with
      | error e2 =>
        rw [hw1] at h
        dsimp only at h
        exact Or.inr ⟨_, (Except.error.inj h).symm⟩
      | ok fs2 =>
        rw [hw1] at h
        dsimp only at h
        exact Or.inr (writeFile_error _ _ _ _ h)

theorem get_error_class (st : Storage) (fs : FS) (b k : String) (e : GoErr)
    (h : Get st fs b k = Except.error e) :
    e = GoErr.status "requested bucket does not exist" 404 ∨
      e = GoErr.status "object under requested key does not exist" 404 ∨
      ∃ m, e = GoErr.plain m := by
  unfold Get at h
  cases hex : existPath st fs b with
  | false =>
    rw [hex] at h
    simp only [Bool.not_false, if_true] at h
    exact Or.inl (Except.error.inj h).symm
  | true =>
    rw [hex] at h
    simp only [Bool.not_true, Bool.false_eq_true, if_false] at h
    cases ho : existPath st fs (b ++ "/" ++ Sha256Hash (strBytes k)) with
    | false =>
      rw [ho] at h
      simp only [Bool.not_false, if_true] at h
      exact Or.inr (Or.inl (Except.error.inj h).symm)
    | true =>
      rw [ho] at h
      simp only [Bool.not_true, Bool.false_eq_true, if_false] at h
      refine Or.inr (Or.inr ?_)
      split at h
      · split at h
        · split at h
          · exact ⟨_, (Except.error.inj h).symm⟩
          · exact absurd h (by simp)
        · exact ⟨_, (Except.error.inj h).symm⟩
        · exact ⟨_, (Except.error.inj h).symm⟩
      · exact ⟨_, (Except.error.inj h).symm⟩
      · exact ⟨_, (Except.error.inj h).symm⟩

theorem delete_error_class (st : Storage) (fs : FS) (b k : String) (e : GoErr)
    (h : Delete st fs b k = Except.error e) :
    e = GoErr.status "requested bucket does not exist" 404 ∨
      e = GoErr.status "object under requested key does not exist" 404 := by
  unfold Delete at h
  cases hex : existPath st fs b with
  | false =>
    rw [hex] at h
    simp only [Bool.not_false, if_true] at h
    exact Or.inl (Except.error.inj h).symm
  | true =>
    rw [hex] at h
    simp only [Bool.not_true, Bool.false_eq_true, if_false] at h
    cases ho : existPath st fs (b ++ "/" ++ Sha256Hash (strBytes k)) with
    | false =>
      rw [ho] at h
      simp only [Bool.not_false, if_true] at h
      exact Or.inr (Except.error.inj h).symm
    | true =>
      rw [ho] at h
      simp only [Bool.not_true, Bool.false_eq_true, if_false] at h
      exact absurd h (by simp)

/-- C10: `Put`, `Get` and `Delete` never apply the naming policy to their
bucket argument: they never return a bad-request (`BucketNameInvalid`)
error — every error they return is a 404 status or a plain error — and
the bucket string is used verbatim in the path `root ++ "/" ++ bucket`, so
two bucket strings denoting the same directory (such as `"abc"` and
`"./abc"`, see the witness) address exactly the same objects in all three
operations. -/
theorem ops_bypass_naming_policy (st : Storage) (fs : FS) :
    (∀ (b k : String) (body : List Nat) (now : Int) (m : String),
      Put st fs b k body now ≠ Except.error (GoErr.status m 400)) ∧
    (∀ (b k m : String), Get st fs b k ≠ Except.error (GoErr.status m 400)) ∧
    (∀ (b k m : String), Delete st fs b k ≠ Except.error (GoErr.status m 400)) ∧
    (∀ (b1 b2 k : String) (body : List Nat) (now : Int),
      normPath (st.path ++ "/" ++ b1) = normPath (st.path ++ "/" ++ b2) →
      Get st fs b1 k = Get st fs b2 k ∧
        Put st fs b1 k body now = Put st fs b2 k body now ∧
        Delete st fs b1 k = Delete st fs b2 k) := by
  refine ⟨?_, ?_, ?_, ?_⟩
  · intro b k body now m h
    rcases put_error_class st fs b k body now _ h with h1 | ⟨m2, h2⟩
    · exact absurd h1 (by simp)
    · exact absurd h2 (by simp)
  · intro b k m h
    rcases get_error_class st fs b k _ h with h1 | h1 | ⟨m2, h2⟩
    · exact absurd h1 (by simp)
    · exact absurd h1 (by simp)
    · exact absurd h2 (by simp)
  · intro b k m h
    rcases delete_error_class st fs b k _ h with h1 | h1
    · exact absurd h1 (by simp)
    · exact absurd h1 (by simp)
  · intro b1 b2 k body now heq
    have e2 : normPath (st.path ++ "/" ++ b1 ++ "/" ++ Sha256Hash (strBytes k)) =
        normPath (st.path ++ "/" ++ b2 ++ "/" ++ Sha256Hash (strBytes k)) := by
      rw [normPath_hash_seg (st.path ++ "/" ++ b1) (strBytes k),
        normPath_hash_seg (st.path ++ "/" ++ b2) (strBytes k), heq]
    have e2' : normPath (st.path ++ "/" ++ (b1 ++ "/" ++ Sha256Hash (strBytes k))) =
        normPath (st.path ++ "/" ++ (b2 ++ "/" ++ Sha256Hash (strBytes k))) := by
      rw [path_assoc, path_assoc]
      exact e2
    have e3 : normPath (st.path ++ "/" ++ b1 ++ "/" ++ Sha256Hash (strBytes k) ++ "/body") =
        normPath (st.path ++ "/" ++ b2 ++ "/" ++ Sha256Hash (strBytes k) ++ "/body") := by
      rw [normPath_body_seg, normPath_body_seg, e2]
    have e4 : normPath
          (st.path ++ "/" ++ b1 ++ "/" ++ Sha256Hash (strBytes k) ++ "/metadata.json") =
        normPath (st.path ++ "/" ++ b2 ++ "/" ++ Sha256Hash (strBytes k) ++ "/metadata.json") := by
      rw [normPath_meta_seg, normPath_meta_seg, e2]
    refine ⟨?_, ?_, ?_⟩ <;> simp only [Get, Put, Delete, existPath, heq, e2, e2', e3, e4]

set_option maxRecDepth 1000000 in
theorem ops_bypass_naming_policy_witness :
    Get wSt wFs2 "abc" "k" = Get wSt wFs2 "./abc" "k" :=
  ((ops_bypass_naming_policy wSt wFs2).2.2.2 "abc" "./abc" "k" [] 0 (by decide)).1

theorem prefix_msg_ne (p : String) :
    ("bucket name can not begin with the prefix: '" ++ p ++ "'") ≠
      "bucket name can consist only of lowercase letters, numbers, periods and hyphens" := by
  intro h
  have h2 := congrArg (fun s => s.data.getD 16 ' ') h
  simp only [sdata_append] at h2
  rw [List.append_assoc,
    List.getD_append _ _ _ _ (by decide :
      16 < ("bucket name can not begin with the prefix: '" : String).data.length)] at h2
  exact absurd h2 (by decide)

theorem suffix_msg_ne (z : String) :
    ("bucket name can not end with the suffix: '" ++ z ++ "'") ≠
      "bucket name can consist only of lowercase letters, numbers, periods and hyphens" := by
  intro h
  have h2 := congrArg (fun s => s.data.getD 16 ' ') h
  simp only [sdata_append] at h2
  rw [List.append_assoc,
    List.getD_append _ _ _ _ (by decide :
      16 < ("bucket name can not end with the suffix: '" : String).data.length)] at h2
  exact absurd h2 (by decide)

theorem validName_char_rule_complete (name : String)
    (h3 : ¬ (strBytes name).length < 3) (h63 : ¬ 63 < (strBytes name).length)
    (hall : name.data.all allowedChar = true) :
    validName name ≠
      some (GoErr.status
        "bucket name can consist only of lowercase letters, numbers, periods and hyphens" 400) := by
  unfold validName
  rw [if_neg h3, if_neg h63, hall]
  simp only [Bool.not_true, Bool.false_eq_true, if_false]
  split
  · decide
  · split
    · decide
    · split
      · decide
      · split
        · decide
        · split
          · rename_i p hp
            intro hcontra
            have hmsg := (GoErr.status.inj (Option.some.inj hcontra)).1
            exact prefix_msg_ne p hmsg
          · split
            · rename_i z hz
              intro hcontra
              have hmsg := (GoErr.status.inj (Option.some.inj hcontra)).1
              exact suffix_msg_ne z hmsg
            · simp

set_option maxRecDepth 10000 in
/-- C7 (amended): once the length rules pass, `validName`'s character rule
fires exactly when some character falls outside Go's `unicode.IsLower` /
`unicode.IsDigit` / `'.'` / `'-'` classes.  ASCII uppercase letters and
the underscore are outside that class — so those are rejected as the
claim says — but non-ASCII lowercase letters such as `'ä'` are inside it,
so names containing them pass the character rule (and can pass `validName`
entirely), contrary to the claimed ASCII-only class. -/
theorem naming_char_rule (name : String)
    (h3 : ¬ (strBytes name).length < 3) (h63 : ¬ 63 < (strBytes name).length) :
    (validName name =
        some (GoErr.status
          "bucket name can consist only of lowercase letters, numbers, periods and hyphens" 400)
      ↔ ¬ (name.data.all allowedChar = true)) ∧
      allowedChar 'ä' = true ∧ allowedChar 'A' = false ∧ allowedChar '_' = false := by
  refine ⟨⟨?_, ?_⟩, by decide, by decide, by decide⟩
  · intro h hall
    exact validName_char_rule_complete name h3 h63 hall h
  · intro hc
    have hf : name.data.all allowedChar = false := by
      revert hc; cases name.data.all allowedChar <;> simp
    unfold validName
    rw [if_neg h3, if_neg h63, hf]
    simp

set_option maxRecDepth 10000 in
theorem naming_char_rule_witness :
    (validName "ab_" =
        some (GoErr.status
          "bucket name can consist only of lowercase letters, numbers, periods and hyphens" 400)
      ↔ ¬ ("ab_".data.all allowedChar = true)) ∧
      allowedChar 'ä' = true ∧ allowedChar 'A' = false ∧ allowedChar '_' = false :=
  naming_char_rule "ab_" (by decide) (by decide)

set_option maxRecDepth 10000 in
/-- C7 counterexample: `"aäb"` contains the non-ASCII character `'ä'`,
which is outside the claimed character set, yet `validName` accepts the
name outright — Go's `unicode.IsLower('ä')` holds, so the character rule
passes. -/
theorem naming_char_rule_cex :
    validName "aäb" = none ∧ ('ä' ∈ "aäb".data) ∧ specAsciiAllowed 'ä' = false ∧
      127 < 'ä'.toNat :=
  ⟨by decide, by decide, by decide, by decide⟩

theorem splitChAux_head_takeWhile (sep : Char) (l : List Char) :
    ∃ t, splitChAux sep l = (l.takeWhile (fun c => c != sep)) :: t := by
  induction l with
  | nil => exact ⟨[], rfl⟩
  | cons c cs ih =>
    obtain ⟨t, ht⟩ := ih
    by_cases hc : c = sep
    · exact ⟨splitChAux sep cs, by simp [splitChAux, hc, List.takeWhile_cons]⟩
    · exact ⟨t, by simp [splitChAux, ht, hc, List.takeWhile_cons]⟩

/-- C8 (amended): the canonical URI is the portion of the request URI
before the first `?`, except that only the entirely empty URI is
normalized to `"/"`: a nonempty URI whose path portion is empty (such as
`"?x"`) yields the empty string, not `"/"`.  No percent-decoding or
dot-segment resolution is applied. -/
theorem canonical_uri_amended (uri : String) :
    canonicalUri uri = if uri.length < 1 then "/" else specUriPath uri := by
  unfold canonicalUri specUriPath goSplit
  obtain ⟨t, ht⟩ := splitChAux_head_takeWhile '?' uri.data
  rw [ht]
  simp

/-- C8 counterexample: the URI `"?x"` has an empty path portion before the
`?`, but `canonicalUri` returns `""` rather than the claimed `"/"` — only
the entirely empty URI is mapped to `"/"`. -/
theorem canonical_uri_cex :
    canonicalUri "?x" = "" ∧ specUriPath "?x" = "" ∧ ("" : String) ≠ "/" :=
  ⟨by decide, by decide, by decide⟩

/-! ## Lemmas: canonical query -/

theorem sempty_append (s : String) : "" ++ s = s := by
  apply sdata_inj
  rw [sdata_append]
  rfl

theorem foldAmp_shift (xs : List String) : ∀ acc : String,
    (xs.foldl (fun a v => a ++ v ++ "&") (acc ++ "&")).data.dropLast =
      (xs.foldl (fun a v => a ++ "&" ++ v) acc).data := by
  induction xs with
  | nil =>
    intro acc
    rw [List.foldl_nil, List.foldl_nil, sdata_append]
    exact List.dropLast_concat
  | cons v t ih =>
    intro acc
    rw [List.foldl_cons, List.foldl_cons]
    exact ih (acc ++ "&" ++ v)

theorem foldAmp_len (xs : List String) : ∀ acc : String,
    acc.data.length ≤ (xs.foldl (fun a v => a ++ v ++ "&") acc).data.length := by
  induction xs with
  | nil => intro acc; simp
  | cons v t ih =>
    intro acc
    rw [List.foldl_cons]
    calc acc.data.length ≤ (acc ++ v ++ "&").data.length := by simp [sdata_append]
      _ ≤ _ := ih _

theorem trimFold_join (l : List String) (hne : l ≠ []) :
    (if 0 < (l.foldl (fun acc v => acc ++ v ++ "&") "").length then
        String.mk (l.foldl (fun acc v => acc ++ v ++ "&") "").data.dropLast
      else l.foldl (fun acc v => acc ++ v ++ "&") "") = joinAmp l := by
  cases l with
  | nil => exact absurd rfl hne
  | cons x xs =>
    have hpos : 0 < ((x :: xs).foldl (fun acc v => acc ++ v ++ "&") "").length := by
      show 0 < ((x :: xs).foldl (fun acc v => acc ++ v ++ "&") "").data.length
      rw [List.foldl_cons]
      calc 0 < ("" ++ x ++ "&").data.length := by simp [sdata_append]
        _ ≤ _ := foldAmp_len xs _
    rw [if_pos hpos, List.foldl_cons, sempty_append]
    have h2 := foldAmp_shift xs x
    rw [h2]
    exact smk_data _

theorem insertSorted_ne_nil (x : String) (l : List String) : insertSorted x l ≠ [] := by
  cases l with
  | nil => simp [insertSorted]
  | cons y ys =>
    simp only [insertSorted]
    split <;> simp

theorem sortStrings_ne_nil (l : List String) (h : l ≠ []) : sortStrings l ≠ [] := by
  cases l with
  | nil => exact absurd rfl h
  | cons x xs => exact insertSorted_ne_nil x _

theorem goSplit_ne_nil (s : String) (sep : Char) : goSplit s sep ≠ [] := by
  unfold goSplit
  intro hcontra
  exact splitChAux_ne_nil sep s.data (List.map_eq_nil.mp hcontra)

theorem splitN2Aux_no_sep (sep : Char) (l : List Char) (h : ∀ c ∈ l, c ≠ sep) :
    splitN2Aux sep l = [l] := by
  induction l with
  | nil => rfl
  | cons c cs ih =>
    have hc : c ≠ sep := h c (by simp)
    have ih' := ih (fun d hd => h d (by simp [hd]))
    simp [splitN2Aux, hc, ih']

theorem splitN2Aux_first (sep : Char) (xs ys : List Char) (h : ∀ c ∈ xs, c ≠ sep) :
    splitN2Aux sep (xs ++ sep :: ys) = [xs, ys] := by
  induction xs with
  | nil => simp [splitN2Aux]
  | cons c cs ih =>
    have hc : c ≠ sep := h c (by simp)
    have ih' := ih (fun d hd => h d (by simp [hd]))
    simp [splitN2Aux, hc, ih']

theorem count_zero_no_sep (sep : Char) (l : List Char) (h : l.count sep = 0) :
    ∀ c ∈ l, c ≠ sep := fun c hc hce => (List.count_eq_zero.mp h) (hce ▸ hc)

theorem count_one_split (sep : Char) (l : List Char) (h : l.count sep = 1) :
    ∃ xs ys, l = xs ++ sep :: ys ∧ (∀ c ∈ xs, c ≠ sep) ∧ (∀ c ∈ ys, c ≠ sep) := by
  induction l with
  | nil => simp at h
  | cons c cs ih =>
    by_cases hc : c = sep
    · subst hc
      have hcc := List.count_cons_self c cs
      have hcs : cs.count c = 0 := by omega
      exact ⟨[], cs, rfl, by simp, count_zero_no_sep c cs hcs⟩
    · have hcs : cs.count sep = 1 := by
        rwa [List.count_cons_of_ne (Ne.symm hc)] at h
      obtain ⟨xs, ys, hl, hxs, hys⟩ := ih hcs
      refine ⟨c :: xs, ys, by simp [hl], ?_, hys⟩
      intro d hd
      rcases List.mem_cons.mp hd with rfl | hd2
      · exact hc
      · exact hxs d hd2

/-- C9 (amended): for request URIs containing at most one `?`, the
canonical query string is exactly as claimed — split the portion after
the `?` (empty when absent) on `&`, sort the key=value tokens as opaque
strings, rejoin with `&`, with no percent-encoding normalization.  When
the URI contains two or more `?` the code uses only the portion between
the first and second `?`, not the whole portion after the first `?`; see
the counterexample. -/
theorem canonical_query_amended (uri : String) (h : uri.data.count '?' ≤ 1) :
    canonicalQuery uri = specCanonicalQuery uri := by
  have hq : (if 1 < (goSplit uri '?').length then (goSplit uri '?').getD 1 "" else "") =
      specQueryPortion uri := by
    rcases Nat.le_one_iff_eq_zero_or_eq_one.mp h with h0 | h1
    · have hns := count_zero_no_sep '?' uri.data h0
      have hg : goSplit uri '?' = [uri] := goSplit_single uri '?' hns
      have hs : splitN2 uri '?' = [uri] := by
        unfold splitN2
        rw [splitN2Aux_no_sep '?' uri.data hns]
        simp [smk_data]
      rw [hg]
      unfold specQueryPortion
      rw [hs]
      simp
    · obtain ⟨xs, ys, hl, hxs, hys⟩ := count_one_split '?' uri.data h1
      have hg : goSplit uri '?' = [String.mk xs, String.mk ys] := by
        unfold goSplit
        rw [hl, splitChAux_append, splitChAux_no_sep '?' xs hxs, splitChAux_no_sep '?' ys hys]
        rfl
      have hs : splitN2 uri '?' = [String.mk xs, String.mk ys] := by
        unfold splitN2
        rw [hl, splitN2Aux_first '?' xs ys hxs]
        rfl
      rw [hg]
      unfold specQueryPortion
      rw [hs]
      simp
  simp only [canonicalQuery, specCanonicalQuery]
  rw [hq]
  exact trimFold_join _ (sortStrings_ne_nil _ (goSplit_ne_nil _ _))

theorem canonical_query_amended_witness :
    canonicalQuery "/x?b=2&a=1" = specCanonicalQuery "/x?b=2&a=1" :=
  canonical_query_amended "/x?b=2&a=1" (by decide)

/-- C9 counterexample: with two `?` in the URI, the code's query portion
is only the text between the first and second `?` ("x=1"), not the whole
portion after the first `?` ("x=1?y=2") as the claim states. -/
theorem canonical_query_cex :
    canonicalQuery "a?x=1?y=2" = "x=1" ∧ specCanonicalQuery "a?x=1?y=2" = "x=1?y=2" ∧
      ("x=1" : String) ≠ "x=1?y=2" :=
  ⟨by decide, by decide, by decide⟩

/-! ## Lemmas: Validate case analysis -/

theorem validate_val_missing (a : Auth) (method uri : String) (headers : Headers) (body : String)
    (h1 : (hlookup headers "authorization").length < 1) :
    Validate a method uri headers body = some (GoErr.plain "authorization header missing") := by
  unfold Validate
  rw [if_pos h1]

theorem parse_val_unsupported (a : Auth) (header : String)
    (hp : hasPrefixGo header (signAlgorithm ++ " ") = false) :
    parseAuthHeader a header = Except.error (GoErr.plain "signing algorithm not supported") := by
  simp [parseAuthHeader, hp]

theorem parse_val_badkey (a : Auth) (header : String)
    (hp : hasPrefixGo header (signAlgorithm ++ " ") = true)
    (hc : hasPrefixGo
        (kvOf (goSplit (dropStr header (signAlgorithm ++ " ").data.length) ',') "Credential")
        (a.accessKey ++ "/") = false) :
    parseAuthHeader a header = Except.error (GoErr.plain "invalid access key") := by
  simp only [parseAuthHeader]
  rw [hp, hc]
  simp

theorem parse_val_ok (a : Auth) (header : String)
    (hp : hasPrefixGo header (signAlgorithm ++ " ") = true)
    (hc : hasPrefixGo
        (kvOf (goSplit (dropStr header (signAlgorithm ++ " ").data.length) ',') "Credential")
        (a.accessKey ++ "/") = true) :
    parseAuthHeader a header = Except.ok
      ⟨dropStr (kvOf (goSplit (dropStr header (signAlgorithm ++ " ").data.length) ',') "Credential")
          (a.accessKey ++ "/").data.length,
        kvOf (goSplit (dropStr header (signAlgorithm ++ " ").data.length) ',') "SignedHeaders",
        kvOf (goSplit (dropStr header (signAlgorithm ++ " ").data.length) ',') "Signature"⟩ := by
  simp only [parseAuthHeader]
  rw [hp, hc]
  simp

theorem validate_val_unsupported (a : Auth) (method uri : String) (headers : Headers)
    (body : String)
    (h1 : ¬ (hlookup headers "authorization").length < 1)
    (hp : hasPrefixGo (hlookup headers "authorization") (signAlgorithm ++ " ") = false) :
    Validate a method uri headers body = some (GoErr.plain "signing algorithm not supported") := by
  unfold Validate
  rw [if_neg h1, parse_val_unsupported a _ hp]

theorem validate_val_badkey (a : Auth) (method uri : String) (headers : Headers) (body : String)
    (h1 : ¬ (hlookup headers "authorization").length < 1)
    (hp : hasPrefixGo (hlookup headers "authorization") (signAlgorithm ++ " ") = true)
    (hc : hasPrefixGo (parsedKV headers "Credential") (a.accessKey ++ "/") = false) :
    Validate a method uri headers body = some (GoErr.plain "invalid access key") := by
  have hc' : hasPrefixGo
      (kvOf (goSplit
        (dropStr (hlookup headers "authorization") (signAlgorithm ++ " ").data.length) ',')
        "Credential") (a.accessKey ++ "/") = false := by
    simpa only [parsedKV, authHeaderValue] using hc
  unfold Validate
  rw [if_neg h1, parse_val_badkey a _ hp hc']

theorem validate_val_parsed (a : Auth) (method uri : String) (headers : Headers) (body : String)
    (h1 : ¬ (hlookup headers "authorization").length < 1)
    (hp : hasPrefixGo (hlookup headers "authorization") (signAlgorithm ++ " ") = true)
    (hc : hasPrefixGo (parsedKV headers "Credential") (a.accessKey ++ "/") = true) :
    Validate a method uri headers body =
      if computedSignature a method uri headers body (parsedAH a headers) ≠
          (parsedAH a headers).signature
      then some (GoErr.plain "invalid signature") else none := by
  have hc' : hasPrefixGo
      (kvOf (goSplit
        (dropStr (hlookup headers "authorization") (signAlgorithm ++ " ").data.length) ',')
        "Credential") (a.accessKey ++ "/") = true := by
    simpa only [parsedKV, authHeaderValue] using hc
  unfold Validate
  rw [if_neg h1, parse_val_ok a _ hp hc']
  simp only [parsedAH, parsedKV, authHeaderValue]

/-- C2: `Validate` fails with the missing-header error exactly when the
authorization header is absent or empty; otherwise fails with the
unsupported-algorithm error exactly when the header does not start with
the literal `"AWS4-HMAC-SHA256 "`; otherwise fails with the
invalid-access-key error exactly when the parsed `Credential` field does
not start with the configured access key followed by `/`; otherwise fails
with the invalid-signature error exactly when the recomputed hex
HMAC-SHA-256 signature differs from the parsed `Signature` field; and
succeeds exactly when they are equal. -/
theorem validate_error_taxonomy (a : Auth) (method uri : String) (headers : Headers)
    (body : String) :
    (Validate a method uri headers body = some (GoErr.plain "authorization header missing") ↔
      (authHeaderValue headers).length < 1) ∧
    (Validate a method uri headers body = some (GoErr.plain "signing algorithm not supported") ↔
      (1 ≤ (authHeaderValue headers).length ∧
        hasPrefixGo (authHeaderValue headers) (signAlgorithm ++ " ") = false)) ∧
    (Validate a method uri headers body = some (GoErr.plain "invalid access key") ↔
      (1 ≤ (authHeaderValue headers).length ∧
        hasPrefixGo (authHeaderValue headers) (signAlgorithm ++ " ") = true ∧
        hasPrefixGo (parsedKV headers "Credential") (a.accessKey ++ "/") = false)) ∧
    (Validate a method uri headers body = some (GoErr.plain "invalid signature") ↔
      (1 ≤ (authHeaderValue headers).length ∧
        hasPrefixGo (authHeaderValue headers) (signAlgorithm ++ " ") = true ∧
        hasPrefixGo (parsedKV headers "Credential") (a.accessKey ++ "/") = true ∧
        computedSignature a method uri headers body (parsedAH a headers) ≠
          (parsedAH a headers).signature)) ∧
    (Validate a method uri headers body = none ↔
      (1 ≤ (authHeaderValue headers).length ∧
        hasPrefixGo (authHeaderValue headers) (signAlgorithm ++ " ") = true ∧
        hasPrefixGo (parsedKV headers "Credential") (a.accessKey ++ "/") = true ∧
        computedSignature a method uri headers body (parsedAH a headers) =
          (parsedAH a headers).signature)) := by
  by_cases h1 : (hlookup headers "authorization").length < 1
  · rw [validate_val_missing a method uri headers body h1]
    have h1' : ¬ 1 ≤ (authHeaderValue headers).length := by
      simpa [authHeaderValue] using h1
    refine ⟨?_, ?_, ?_, ?_, ?_⟩ <;> simp [authHeaderValue, h1, h1']
  · have h1' : 1 ≤ (authHeaderValue headers).length := by
      simp only [authHeaderValue]
      omega
    cases hp : hasPrefixGo (hlookup headers "authorization") (signAlgorithm ++ " ") with
    | false =>
      rw [validate_val_unsupported a method uri headers body h1 hp]
      have hp' : hasPrefixGo (authHeaderValue headers) (signAlgorithm ++ " ") = false := hp
      refine ⟨?_, ?_, ?_, ?_, ?_⟩ <;> simp [h1', hp'] <;> omega
    | true =>
      have hp' : hasPrefixGo (authHeaderValue headers) (signAlgorithm ++ " ") = true := hp
      cases hc : hasPrefixGo (parsedKV headers "Credential") (a.accessKey ++ "/") with
      | false =>
        rw [validate_val_badkey a method uri headers body h1 hp hc]
        refine ⟨?_, ?_, ?_, ?_, ?_⟩ <;> simp [h1', hp', hc] <;> omega
      | true =>
        rw [validate_val_parsed a method uri headers body h1 hp hc]
        by_cases hs : computedSignature a method uri headers body (parsedAH a headers) =
            (parsedAH a headers).signature
        · rw [if_neg (by simpa using hs)]
          refine ⟨?_, ?_, ?_, ?_, ?_⟩ <;> simp [h1', hp', hc, hs] <;> omega
        · rw [if_pos hs]
          refine ⟨?_, ?_, ?_, ?_, ?_⟩ <;> simp [h1', hp', hc, hs] <;> omega

theorem canonicalHeaders_congr : ∀ (signed : List String) (h1 h2 : Headers) (acc : String),
    (∀ n ∈ signed, hlookup h1 n = hlookup h2 n) →
    signed.foldl (fun acc key => acc ++ key ++ ":" ++ trimSpace (hlookup h1 key) ++ "\n") acc =
      signed.foldl (fun acc key => acc ++ key ++ ":" ++ trimSpace (hlookup h2 key) ++ "\n") acc := by
  intro signed
  induction signed with
  | nil => intro h1 h2 acc hs; rfl
  | cons n t ih =>
    intro h1 h2 acc hs
    rw [List.foldl_cons, List.foldl_cons, hs n (by simp)]
    exact ih h1 h2 _ (fun m hm => hs m (by simp [hm]))

theorem canonicalHeaders_eq (h1 h2 : Headers) (signed : List String)
    (hs : ∀ n ∈ signed, hlookup h1 n = hlookup h2 n) :
    canonicalHeaders h1 signed = canonicalHeaders h2 signed :=
  canonicalHeaders_congr signed h1 h2 "" hs

/-- C3 (amended): `Validate`, the canonical request and the recomputed
signature are pure functions of their inputs, so two runs on identical
inputs give identical results; and whenever two header maps agree on
`"authorization"`, `"x-amz-date"` and every name listed in the parsed
`SignedHeaders` field, the canonical request, the recomputed signature and
the verdict of `Validate` are all identical — hence changing any *other*
header changes nothing.  The claim's version, quantified over every header
not in `SignedHeaders`, is false: `Validate` also reads `"authorization"`
and `"x-amz-date"` directly (see the counterexample for the date header). -/
theorem signed_header_independence (a : Auth) (method uri body : String) (h1 h2 : Headers)
    (hauth : hlookup h1 "authorization" = hlookup h2 "authorization")
    (hdate : hlookup h1 "x-amz-date" = hlookup h2 "x-amz-date")
    (hsig : ∀ n ∈ signedNamesOf a h1, hlookup h1 n = hlookup h2 n) :
    Validate a method uri h1 body = Validate a method uri h2 body ∧
      ∀ ah : AuthHeader, parseAuthHeader a (hlookup h1 "authorization") = Except.ok ah →
        canonicalRequest method uri h1 ah.signedHeaders body =
          canonicalRequest method uri h2 ah.signedHeaders body ∧
        computedSignature a method uri h1 body ah = computedSignature a method uri h2 body ah := by
  have hCR : ∀ ah : AuthHeader, parseAuthHeader a (hlookup h1 "authorization") = Except.ok ah →
      canonicalRequest method uri h1 ah.signedHeaders body =
        canonicalRequest method uri h2 ah.signedHeaders body := by
    intro ah hok
    have hnames : ∀ n ∈ goSplit ah.signedHeaders ';', hlookup h1 n = hlookup h2 n := by
      intro n hn
      apply hsig
      unfold signedNamesOf authHeaderValue
      rw [hok]
      simpa using hn
    unfold canonicalRequest
    rw [canonicalHeaders_eq h1 h2 _ hnames]
  have hCS : ∀ ah : AuthHeader, parseAuthHeader a (hlookup h1 "authorization") = Except.ok ah →
      computedSignature a method uri h1 body ah = computedSignature a method uri h2 body ah := by
    intro ah hok
    unfold computedSignature strToSign
    rw [hCR ah hok, hdate]
  refine ⟨?_, fun ah hok => ⟨hCR ah hok, hCS ah hok⟩⟩
  unfold Validate
  rw [hauth]
  by_cases hlen : (hlookup h2 "authorization").length < 1
  · rw [if_pos hlen, if_pos hlen]
  · rw [if_neg hlen, if_neg hlen]
    cases hok : parseAuthHeader a (hlookup h2 "authorization") with
    | error e => rfl
    | ok ah =>
      have hok1 : parseAuthHeader a (hlookup h1 "authorization") = Except.ok ah := by
        rw [hauth]; exact hok
      dsimp only
      rw [hCS ah hok1]

theorem signed_header_independence_witness :
    Validate cexAuth "GET" "/x" wHdrs1 "bh" = Validate cexAuth "GET" "/x" wHdrs2 "bh" ∧
      ∀ ah : AuthHeader,
        parseAuthHeader cexAuth (hlookup wHdrs1 "authorization") = Except.ok ah →
        canonicalRequest "GET" "/x" wHdrs1 ah.signedHeaders "bh" =
          canonicalRequest "GET" "/x" wHdrs2 ah.signedHeaders "bh" ∧
        computedSignature cexAuth "GET" "/x" wHdrs1 "bh" ah =
          computedSignature cexAuth "GET" "/x" wHdrs2 "bh" ah :=
  signed_header_independence cexAuth "GET" "/x" "bh" wHdrs1 wHdrs2 (by decide) (by decide)
    (by decide)

set_option maxRecDepth 4000000 in
/-- C3 counterexample: `"x-amz-date"` is not among the signed headers of
this request, and the two header maps differ only in that header, yet
`Validate` flips from accept to reject — the timestamp enters the
string-to-sign directly, outside the signed-header block. -/
theorem signed_header_independence_cex :
    Validate cexAuth "GET" "/x" cexHdrs1 "bh" = none ∧
      Validate cexAuth "GET" "/x" cexHdrs2 "bh" = some (GoErr.plain "invalid signature") ∧
      ¬ ("x-amz-date" ∈ signedNamesOf cexAuth cexHdrs1) ∧
      hlookup cexHdrs1 "host" = hlookup cexHdrs2 "host" ∧
      hlookup cexHdrs1 "authorization" = hlookup cexHdrs2 "authorization" ∧
      hlookup cexHdrs1 "x-amz-date" ≠ hlookup cexHdrs2 "x-amz-date" :=
  ⟨by decide, by decide, by decide, by decide, by decide, by decide⟩
